import Mathlib

/-!
# Verification of the udev event-manager core (src/udev/udev-manager.c)

This file gives a shallow embedding of the event-queue / worker-pool core of
the device-event manager (`udev-manager.c`) and proves the specification
claims about it.

Modelling conventions:
* C strings (`const char *`) that may be `NULL` become `Option String`;
  a string that is always set becomes `String`.
* `usec_t` timestamps become `Nat`.
* The intrusive `LIST` of events becomes a `List Event` in queue order
  (oldest first); the `Hashmap` of workers keyed by pid becomes a
  `List Worker` (the list order stands for the unspecified hash iteration
  order).
* `sd_event_now` is an input from the environment and is modelled as an
  `Option Nat` (`none` = the clock lookup fails, the error path of the C
  code).
* Fallible C functions returning a negative errno become `Except`/`Option`.
* External effects (logging, signals sent to processes, broadcasts to
  libudev listeners, the `/run/udev/queue` sentinel file) have no effect on
  the manager state and are not modelled.
-/

namespace Udev

/-- Event states (`EventState` in udev-manager.c).  `EVENT_UNDEF` is only
used as a wildcard argument to `event_queue_cleanup` and is represented by
`Option.none` there; queue members are always `QUEUED` or `RUNNING`. -/
inductive EventState where
  | queued
  | running
deriving DecidableEq, Repr

/-- Worker states (`WorkerState` in udev-manager.c). -/
inductive WorkerState where
  | undef
  | running
  | idle
  | killed
  | killing
deriving DecidableEq, Repr

/-- `struct Event` of udev-manager.c.  The `worker` back-pointer is
represented by the linked worker's pid; the `sd_device*`, the event-source
fields and `action` are opaque to every claim and omitted. -/
structure Event where
  seqnum : Nat
  id : Option String
  devpath : String
  devpath_old : Option String
  devnode : Option String
  state : EventState
  blocker_seqnum : Nat
  retry_again_next_usec : Nat
  retry_again_timeout_usec : Nat
  worker : Option Nat
deriving DecidableEq, Repr

/-- `struct Worker` of udev-manager.c.  The `event` pointer is represented
by the linked event's seqnum. -/
structure Worker where
  pid : Nat
  state : WorkerState
  event : Option Nat
deriving DecidableEq, Repr

/-- The manager state relevant to the event queue and worker pool. -/
structure Manager where
  events : List Event
  workers : List Worker
  children_max : Nat
  exit : Bool
  stop_exec_queue : Bool
deriving DecidableEq, Repr

def USEC_PER_MSEC : Nat := 1000

def USEC_PER_SEC : Nat := 1000000

def USEC_PER_MINUTE : Nat := 60 * USEC_PER_SEC

/-- `#define EVENT_RETRY_INTERVAL_USEC (200 * USEC_PER_MSEC)` -/
def EVENT_RETRY_INTERVAL_USEC : Nat := 200 * USEC_PER_MSEC

/-- `#define EVENT_RETRY_TIMEOUT_USEC (3 * USEC_PER_MINUTE)` -/
def EVENT_RETRY_TIMEOUT_USEC : Nat := 3 * USEC_PER_MINUTE

/-- Modelled from the spec: `usec_add` (time-util.h, not under src/).  The
spec says the next-retry time is "now plus the retry interval" and the
deadline "now plus the fixed retry window", i.e. plain addition. -/
def usec_add (a b : Nat) : Nat := a + b

/-- Modelled from the spec: `streq_ptr` (string-util-fundamental.h, not
under src/).  Per the spec, "a nonexistent device path or identifier is
treated as does-not-conflict for that criterion alone": an absent string
compares unequal to everything, including another absent string. -/
def streq_ptr : Option String → Option String → Bool
  | some a, some b => a = b
  | _, _ => false

/-- The character-list loop of `devpath_conflict`: advance while both
strings agree; at the end of `for (; *a != '\0' && *b != '\0'; a++, b++)`
the C code returns `*a == '/' || *b == '/' || *a == *b`. -/
def devpath_conflict_chars : List Char → List Char → Bool
  | [], [] => true
  | [], c :: _ => c = '/'
  | c :: _, [] => c = '/'
  | a :: as, b :: bs => a = b && devpath_conflict_chars as bs

/-- `devpath_conflict` of udev-manager.c: true when two paths are
equivalent or one is a child of the other; `NULL` never conflicts. -/
def devpath_conflict : Option String → Option String → Bool
  | some a, some b => devpath_conflict_chars a.data b.data
  | _, _ => false

/-- The conflict test of the second scan loop in `event_is_blocked`,
between `event` (the later event being checked) and `loop_event` (an
earlier queue entry): identical device id, device-path conflict against
current and previous paths, or identical device node. -/
def event_conflicts (event loop_event : Event) : Bool :=
  streq_ptr loop_event.id event.id
  || devpath_conflict (some event.devpath) (some loop_event.devpath)
  || devpath_conflict (some event.devpath) loop_event.devpath_old
  || devpath_conflict event.devpath_old (some loop_event.devpath)
  || (event.devnode.isSome && streq_ptr event.devnode loop_event.devnode)

/-- The second loop of `event_is_blocked` (`LIST_FOREACH(event, e,
loop_event)`): walk forward from the first unproven entry; reaching an
entry with `seqnum >= event->seqnum` (the event itself) means no blocker;
a conflicting entry is the new blocker.  When the loop exhausts the list
without reaching the event, the C code falls through and records the last
visited entry as blocker; this only happens when `event` is not in the
scanned suffix (never the case for a queued event). -/
def find_blocker (e : Event) : List Event → Option Nat
  | [] => none
  | le :: rest =>
    if e.seqnum ≤ le.seqnum then none
    else if event_conflicts e le then some le.seqnum
    else if rest.isEmpty then some le.seqnum
    else find_blocker e rest

/-- Result of the queue scan of `event_is_blocked`. -/
inductive ScanResult where
  | blocked_cached
  | blocked (b : Nat)
  | no_blocker
deriving DecidableEq, Repr

/-- The first loop of `event_is_blocked`: skip entries already proven
non-blocking (`seqnum < blocker_seqnum`); an entry equal to the cached
blocker means the old blocker still exists; an entry at or past the event
itself means no blocker; otherwise hand the first unproven entry to the
second loop (`find_blocker`).  The `[]` case is unreachable in the C code
(`assert(loop_event)`): the event itself is always in the queue. -/
def scan_events (e : Event) : List Event → ScanResult
  | [] => ScanResult.no_blocker
  | le :: rest =>
    if le.seqnum < e.blocker_seqnum then scan_events e rest
    else if le.seqnum = e.blocker_seqnum then ScanResult.blocked_cached
    else if e.seqnum ≤ le.seqnum then ScanResult.no_blocker
    else
      match find_blocker e (le :: rest) with
      | some b => ScanResult.blocked b
      | none => ScanResult.no_blocker

/-- The part of `event_is_blocked` after the retry-backoff gate: the
memoized fast path (`blocker_seqnum == seqnum`), then the queue scan.
Returns the boolean result together with the event's new
`blocker_seqnum`. -/
def event_is_blocked_core (l : List Event) (e : Event) : Bool × Nat :=
  if e.blocker_seqnum = e.seqnum then (false, e.blocker_seqnum)
  else
    match scan_events e l with
    | ScanResult.blocked_cached => (true, e.blocker_seqnum)
    | ScanResult.blocked b => (true, b)
    | ScanResult.no_blocker => (false, e.seqnum)

/-- `event_is_blocked`: if a retry backoff is pending, look up the clock
(`sd_event_now`, an environment input; `none` = lookup failure, the
negative return of the C code) and report blocked while the next-retry
time is in the future; otherwise fall through to the memoized queue
scan. -/
def event_is_blocked (clock : Option Nat) (l : List Event) (e : Event) :
    Except Unit (Bool × Nat) :=
  if 0 < e.retry_again_next_usec then
    match clock with
    | none => Except.error ()
    | some now =>
      if now < e.retry_again_next_usec then Except.ok (true, e.blocker_seqnum)
      else Except.ok (event_is_blocked_core l e)
  else Except.ok (event_is_blocked_core l e)

/-- The idle-worker scan of `event_run`: hand the event to the first idle
worker that accepts it (`device_monitor_send` succeeding is modelled by
the oracle `accept`); a worker that does not accept the message is killed
(`SIGKILL`, state `WORKER_KILLED`) and the scan continues.  Returns the
updated worker table and the pid of the worker the event was attached to,
if any. -/
def try_idle_workers (accept : Nat → Bool) (seq : Nat) :
    List Worker → List Worker × Option Nat
  | [] => ([], none)
  | w :: ws =>
    if w.state = WorkerState.idle then
      if accept w.pid then
        ({ w with state := WorkerState.running, event := some seq } :: ws, some w.pid)
      else
        ({ w with state := WorkerState.killed } :: (try_idle_workers accept seq ws).1,
          (try_idle_workers accept seq ws).2)
    else
      (w :: (try_idle_workers accept seq ws).1, (try_idle_workers accept seq ws).2)

/-- What `event_run` does to an idle worker whose hand-off failed:
killed (`SIGKILL`), state `WORKER_KILLED`; other workers untouched. -/
def kill_on_failed_handoff (w : Worker) : Worker :=
  if w.state = WorkerState.idle then { w with state := WorkerState.killed } else w

/-- `event_run` on the worker table: try the idle workers; with no taker,
return 0 ("no free worker") when the table is at `children_max`; otherwise
spawn a new worker (fork success and pid freshness are the oracles
`spawn_ok` / `newpid`; a duplicate pid makes `hashmap_ensure_put` in
`worker_new` fail) and attach the event to it.  Returns the C return
value, the new worker table, and the pid the event was attached to. -/
def event_run (accept : Nat → Bool) (spawn_ok : Bool) (newpid : Nat)
    (children_max : Nat) (workers : List Worker) (seq : Nat) :
    Int × List Worker × Option Nat :=
  match try_idle_workers accept seq workers with
  | (ws, some pid) => (1, ws, some pid)
  | (ws, none) =>
    if children_max ≤ ws.length then (0, ws, none)
    else if !spawn_ok || ws.any (fun w => w.pid = newpid) then (-1, ws, none)
    else (1, ws ++ [⟨newpid, WorkerState.running, some seq⟩], some newpid)

/-- Write the blocker cache computed by `event_is_blocked` back into the
queue entry. -/
def set_event_blocker (seq b : Nat) (l : List Event) : List Event :=
  l.map fun e => if e.seqnum = seq then { e with blocker_seqnum := b } else e

/-- `worker_attach_event` seen from the queue: the event goes to
`EVENT_RUNNING` and is linked to its worker. -/
def set_event_running (seq pid : Nat) (l : List Event) : List Event :=
  l.map fun e =>
    if e.seqnum = seq then { e with state := EventState.running, worker := some pid }
    else e

/-- `manager_kill_workers`: a `KILLED` worker is skipped; a `RUNNING`
worker is only soft-killed (`KILLING`) unless `force`; everyone else is
sent `SIGTERM` and marked `KILLED`. -/
def kill_workers_list (force : Bool) (ws : List Worker) : List Worker :=
  ws.map fun w =>
    if w.state = WorkerState.killed then w
    else if w.state = WorkerState.running ∧ force = false then
      { w with state := WorkerState.killing }
    else { w with state := WorkerState.killed }

def manager_kill_workers (force : Bool) (st : Manager) : Manager :=
  { st with workers := kill_workers_list force st.workers }

/-- Per-iteration oracles of a dispatch pass: whether the worker with a
given pid accepts a hand-off at iteration `i`, whether `fork` succeeds,
which pid a spawned worker gets, and whether the `manager_reload` call at
the head of `event_queue_start` decides to kill the workers. -/
structure RunEnv where
  accept : Nat → Nat → Bool
  spawn_ok : Nat → Bool
  newpid : Nat → Nat
  reload_kills : Bool

/-- `event_run` lifted to the manager state: on successful attachment the
event becomes `RUNNING` and linked to the worker. -/
def manager_event_run (env : RunEnv) (i : Nat) (st : Manager) (seq : Nat) :
    Int × Manager :=
  match event_run (env.accept i) (env.spawn_ok i) (env.newpid i)
      st.children_max st.workers seq with
  | (r, ws, none) => (r, { st with workers := ws })
  | (r, ws, some pid) =>
    (r, { st with workers := ws, events := set_event_running seq pid st.events })

/-- The `LIST_FOREACH` dispatch loop of `event_queue_start`, iterating over
a snapshot of the queue's sequence numbers (`event_run` never inserts or
removes queue entries, so the snapshot is faithful): skip non-`QUEUED`
entries; a blocked event only has its blocker cache updated; an analysis
error is logged and treated as not blocked (fail-open); `event_run`
returning 0 or an error stops the whole pass. -/
def queue_start_loop (env : RunEnv) (clock : Option Nat) :
    Manager → Nat → List Nat → Manager
  | st, _, [] => st
  | st, i, seq :: rest =>
    match st.events.find? (fun e => e.seqnum = seq) with
    | none => queue_start_loop env clock st (i + 1) rest
    | some e =>
      if e.state = EventState.queued then
        match event_is_blocked clock st.events e with
        | Except.ok (true, b) =>
          queue_start_loop env clock
            { st with events := set_event_blocker seq b st.events } (i + 1) rest
        | Except.ok (false, b) =>
          if (manager_event_run env i
                { st with events := set_event_blocker seq b st.events } seq).1 ≤ 0 then
            (manager_event_run env i
              { st with events := set_event_blocker seq b st.events } seq).2
          else
            queue_start_loop env clock
              (manager_event_run env i
                { st with events := set_event_blocker seq b st.events } seq).2
              (i + 1) rest
        | Except.error _ =>
          if (manager_event_run env i st seq).1 ≤ 0 then
            (manager_event_run env i st seq).2
          else
            queue_start_loop env clock (manager_event_run env i st seq).2 (i + 1) rest
      else queue_start_loop env clock st (i + 1) rest

/-- `event_queue_start`: nothing to do on an empty queue, on exit, or with
the exec queue stopped; otherwise `manager_reload` may kill the workers
(rules changed), then the dispatch loop runs. -/
def event_queue_start (env : RunEnv) (clock : Option Nat) (st : Manager) : Manager :=
  if st.events.isEmpty || st.exit || st.stop_exec_queue then st
  else if env.reload_kills then
    queue_start_loop env clock (manager_kill_workers false st) 0
      ((manager_kill_workers false st).events.map (fun e => e.seqnum))
  else
    queue_start_loop env clock st 0 (st.events.map (fun e => e.seqnum))

/-- `event_requeue`: cancel the timeout timers, look up the clock (failure
frees the event — the `fail` label); a retry deadline that is set and has
passed also frees the event (`ETIMEDOUT`); otherwise set the next-retry
time, set the deadline if not yet set, detach from the worker and go back
to `EVENT_QUEUED`.  `none` = the event is removed from the queue (device
annotated with the error and the outcome broadcast, which have no manager
state). -/
def event_requeue (clock : Option Nat) (e : Event) : Option Event :=
  match clock with
  | none => none
  | some now =>
    if 0 < e.retry_again_timeout_usec ∧ e.retry_again_timeout_usec ≤ now then none
    else
      some { e with
        retry_again_next_usec := usec_add now EVENT_RETRY_INTERVAL_USEC,
        retry_again_timeout_usec :=
          if e.retry_again_timeout_usec = 0 then usec_add now EVENT_RETRY_TIMEOUT_USEC
          else e.retry_again_timeout_usec,
        worker := none,
        state := EventState.queued }

/-- `event_free` seen from the manager: the event leaves the queue and any
worker holding it is unlinked. -/
def event_free_in (seq : Nat) (st : Manager) : Manager :=
  { st with
    events := st.events.filter (fun e => e.seqnum ≠ seq),
    workers := st.workers.map fun w =>
      if w.event = some seq then { w with event := none } else w }

/-- The worker-state update at the end of `on_notify`: a `KILLING` worker
is now sent the signal and becomes `KILLED`; a `KILLED` one stays; every
other worker becomes `IDLE`. -/
def notify_new_state (s : WorkerState) : WorkerState :=
  if s = WorkerState.killing then WorkerState.killed
  else if s = WorkerState.killed then WorkerState.killed
  else WorkerState.idle

def update_worker_state (pid : Nat) (st : Manager) : Manager :=
  { st with workers := st.workers.map fun w =>
      if w.pid = pid then { w with state := notify_new_state w.state } else w }

/-- `on_notify` for a final datagram without `TRY_AGAIN=1`: the worker's
event is freed and the worker becomes idle (or completes its kill). -/
def on_notify_done (st : Manager) (pid : Nat) : Manager :=
  match st.workers.find? (fun w => w.pid = pid) with
  | none => st
  | some w =>
    match w.event with
    | some seq => update_worker_state pid (event_free_in seq st)
    | none => update_worker_state pid st

/-- `on_notify` for a `TRY_AGAIN=1` datagram: `event_requeue` the worker's
event, then update the worker state.  A missing worker is ignored; the
worker having no event or the event not being queued cannot happen (the C
code dereferences them unconditionally). -/
def on_notify_try_again (clock : Option Nat) (st : Manager) (pid : Nat) : Manager :=
  match st.workers.find? (fun w => w.pid = pid) with
  | none => st
  | some w =>
    match w.event with
    | none => st
    | some seq =>
      match st.events.find? (fun e => e.seqnum = seq) with
      | none => st
      | some e =>
        match event_requeue clock e with
        | none => update_worker_state pid (event_free_in seq st)
        | some e2 =>
          update_worker_state pid
            { st with
              events := st.events.map (fun x => if x.seqnum = seq then e2 else x),
              workers := st.workers.map fun w2 =>
                if w2.event = some seq then { w2 with event := none } else w2 }

/-- `on_sigchld` / `worker_free`: the worker record leaves the table and
its in-flight event, if any, is freed (after the device is annotated with
the exit status or signal and the outcome broadcast). -/
def on_sigchld (st : Manager) (pid : Nat) : Manager :=
  match st.workers.find? (fun w => w.pid = pid) with
  | none => st
  | some w =>
    match w.event with
    | some seq =>
      { st with events := st.events.filter (fun e => e.seqnum ≠ seq),
                workers := st.workers.filter (fun w2 => w2.pid ≠ pid) }
    | none => { st with workers := st.workers.filter (fun w2 => w2.pid ≠ pid) }

/-- The match test of `event_queue_cleanup`: `EVENT_UNDEF` (here `none`)
matches every state. -/
def cleanup_matches (match_state : Option EventState) (e : Event) : Bool :=
  match match_state with
  | none => true
  | some s => e.state = s

/-- `event_queue_cleanup`: free every matching event; `event_free` unlinks
the worker of each freed event. -/
def event_queue_cleanup (st : Manager) (match_state : Option EventState) : Manager :=
  { st with
    events := st.events.filter (fun e => !cleanup_matches match_state e),
    workers := st.workers.map fun w =>
      match w.event with
      | some seq =>
        if (st.events.filter (cleanup_matches match_state)).any (fun e => e.seqnum = seq)
        then { w with event := none } else w
      | none => w }

/-- `manager_exit`: set the exit flag, discard the queued events, and
force-kill the workers.  (Closing the event sources has no queue/worker
state.) -/
def manager_exit (st : Manager) : Manager :=
  manager_kill_workers true
    (event_queue_cleanup { st with exit := true } (some EventState.queued))

/-- `event_queue_insert`: the validated event is appended at the tail of
the queue. -/
def event_queue_insert (st : Manager) (ev : Event) : Manager :=
  { st with events := st.events ++ [ev] }

/-- `event_queue_assume_block_device_unlocked`: clear the retry backoff of
every queued event in retry mode whose whole-disk device matches the
woken device.  The whole-disk comparison (`udev_get_whole_disk`, an
sd-device lookup outside this file) is abstracted by the predicate `p`. -/
def event_queue_assume_block_device_unlocked (p : Event → Bool) (st : Manager) : Manager :=
  { st with events := st.events.map fun e =>
      if e.state = EventState.queued ∧ e.retry_again_next_usec ≠ 0 ∧ p e
      then { e with retry_again_next_usec := 0 } else e }

/-- `manager_new`: empty queue, empty worker table. -/
def manager_new (children_max : Nat) : Manager :=
  { events := [], workers := [], children_max := children_max,
    exit := false, stop_exec_queue := false }

/-- One manager-loop handler invocation, each running to completion on the
single event-loop thread.  `insert` carries the kernel guarantee that
sequence numbers are monotonic and unique (a fresh event has a larger
seqnum than everything queued) and the initial field values set by
`event_queue_insert`. -/
inductive Step : Manager → Manager → Prop where
  | insert (st : Manager) (ev : Event)
      (hfresh : ∀ e ∈ st.events, e.seqnum < ev.seqnum)
      (hstate : ev.state = EventState.queued)
      (hblocker : ev.blocker_seqnum = 0)
      (hworker : ev.worker = none) :
      Step st (event_queue_insert st ev)
  | assume_unlocked (st : Manager) (p : Event → Bool) :
      Step st (event_queue_assume_block_device_unlocked p st)
  | start (st : Manager) (env : RunEnv) (now : Nat) :
      Step st (event_queue_start env (some now) st)
  | notify_done (st : Manager) (pid : Nat) :
      Step st (on_notify_done st pid)
  | notify_try_again (st : Manager) (pid now : Nat) :
      Step st (on_notify_try_again (some now) st pid)
  | sigchld (st : Manager) (pid : Nat) :
      Step st (on_sigchld st pid)
  | kill_workers (st : Manager) (force : Bool) :
      Step st (manager_kill_workers force st)
  | exit_step (st : Manager) :
      Step st (manager_exit st)
  | set_stop (st : Manager) (b : Bool) :
      Step st { st with stop_exec_queue := b }

/-- Manager states reachable from a fresh manager. -/
inductive Reachable : Manager → Prop where
  | init (children_max : Nat) : Reachable (manager_new children_max)
  | step {st st2 : Manager} : Reachable st → Step st st2 → Reachable st2

/-- Two events with the same identity as far as `event_conflicts` is
concerned (the fields that never change while an event is queued). -/
def SameIdent (a b : Event) : Prop :=
  a.seqnum = b.seqnum ∧ a.id = b.id ∧ a.devpath = b.devpath ∧
  a.devpath_old = b.devpath_old ∧ a.devnode = b.devnode

/-- The queue invariant maintained by every manager-loop handler:
the queue is sorted by (unique) sequence number; every blocker cache is
at most the event's own seqnum; everything below an event's blocker cache
has been proven non-conflicting with it; and no event runs while an
earlier conflicting event is still in the queue (the serialization
invariant). -/
structure EInv (l : List Event) : Prop where
  sorted : l.Pairwise (fun a b => a.seqnum < b.seqnum)
  cache_le : ∀ e ∈ l, e.blocker_seqnum ≤ e.seqnum
  cache_sound : ∀ e ∈ l, ∀ x ∈ l, x.seqnum < e.blocker_seqnum →
    event_conflicts e x = false
  serial : ∀ e1 ∈ l, ∀ e2 ∈ l, e1.seqnum < e2.seqnum →
    event_conflicts e2 e1 = true → e2.state ≠ EventState.running

/-! ## Characterization of `devpath_conflict` -/

lemma devpath_conflict_chars_iff (a b : List Char) :
    devpath_conflict_chars a b = true ↔
      (a = b ∨ (∃ t, b = a ++ '/' :: t) ∨ (∃ t, a = b ++ '/' :: t)) := by
  induction a generalizing b with
  | nil =>
    cases b with
    | nil => simp [devpath_conflict_chars]
    | cons c bs =>
      simp only [devpath_conflict_chars, decide_eq_true_eq, List.nil_append]
      constructor
      · intro h
        exact Or.inr (Or.inl ⟨bs, by rw [h]⟩)
      · rintro (h | ⟨t, ht⟩ | ⟨t, ht⟩)
        · cases h
        · exact (List.cons.injEq _ _ _ _ ▸ ht).1
        · cases ht
  | cons x as ih =>
    cases b with
    | nil =>
      simp only [devpath_conflict_chars, decide_eq_true_eq]
      constructor
      · intro h
        exact Or.inr (Or.inr ⟨as, by simp [h]⟩)
      · rintro (h | ⟨t, ht⟩ | ⟨t, ht⟩)
        · cases h
        · cases ht
        · exact (List.cons.injEq _ _ _ _ ▸ ht).1
    | cons y bs =>
      simp only [devpath_conflict_chars, Bool.and_eq_true, decide_eq_true_eq]
      constructor
      · rintro ⟨rfl, h⟩
        rcases (ih bs).mp h with rfl | ⟨t, rfl⟩ | ⟨t, rfl⟩
        · exact Or.inl rfl
        · exact Or.inr (Or.inl ⟨t, rfl⟩)
        · exact Or.inr (Or.inr ⟨t, rfl⟩)
      · rintro (h | ⟨t, ht⟩ | ⟨t, ht⟩)
        · obtain ⟨h1, h2⟩ := List.cons.injEq _ _ _ _ ▸ h
          exact ⟨h1, (ih bs).mpr (Or.inl h2)⟩
        · rw [List.cons_append] at ht
          obtain ⟨h1, h2⟩ := List.cons.injEq _ _ _ _ ▸ ht
          exact ⟨h1.symm, (ih bs).mpr (Or.inr (Or.inl ⟨t, h2⟩))⟩
        · rw [List.cons_append] at ht
          obtain ⟨h1, h2⟩ := List.cons.injEq _ _ _ _ ▸ ht
          exact ⟨h1, (ih bs).mpr (Or.inr (Or.inr ⟨t, h2⟩))⟩

/-- C2: device-path conflict detection is boundary-aware: two
character-level paths conflict exactly when they are equal or one extends
the other with a component starting at a `'/'` boundary; in particular
`/a/b` conflicts with `/a/b/c` but not with `/a/bc`, and `/devices/a` does
not conflict with `/devices/ab`. -/
theorem devpath_conflict_boundary :
    (∀ a b : List Char, devpath_conflict_chars a b = true ↔
       (a = b ∨ (∃ t, b = a ++ '/' :: t) ∨ (∃ t, a = b ++ '/' :: t))) ∧
    devpath_conflict (some "/a/b") (some "/a/b/c") = true ∧
    devpath_conflict (some "/a/b") (some "/a/bc") = false ∧
    devpath_conflict (some "/devices/a") (some "/devices/ab") = false :=
  ⟨devpath_conflict_chars_iff, by decide, by decide, by decide⟩

/-! ## Absent optional fields and conflicts -/

/-- C5: an absent (`NULL`) device path, previous device path, device
identifier or device-node path never makes a pair of events conflict by
itself, while the remaining criteria still apply: with every optional
field absent, `event_conflicts` degenerates to exactly the conflict test
on the two current device paths. -/
theorem absent_fields_do_not_conflict :
    (∀ x y : Option String, x = none ∨ y = none → streq_ptr x y = false) ∧
    (∀ x : Option String,
        devpath_conflict none x = false ∧ devpath_conflict x none = false) ∧
    (∀ e1 e2 : Event, e2.devnode = none →
        (e2.devnode.isSome && streq_ptr e2.devnode e1.devnode) = false) ∧
    (∀ e1 e2 : Event, e2.id = none ∨ e1.id = none → e2.devnode = none →
        e2.devpath_old = none → e1.devpath_old = none →
        event_conflicts e2 e1 = devpath_conflict (some e2.devpath) (some e1.devpath)) := by
  refine ⟨?_, ?_, ?_, ?_⟩
  · rintro x y (rfl | rfl)
    · simp [streq_ptr]
    · cases x <;> simp [streq_ptr]
  · intro x
    cases x <;> simp [devpath_conflict]
  · intro e1 e2 h
    simp [h]
  · intro e1 e2 hid hn ho1 ho2
    have hs : streq_ptr e1.id e2.id = false := by
      rcases hid with h | h
      · rw [h]; cases e1.id <;> simp [streq_ptr]
      · rw [h]; simp [streq_ptr]
    simp [event_conflicts, hs, hn, ho1, ho2, devpath_conflict]

/-- Witness for C5 at a concrete pair of events: both events lack id,
previous path and device node, so the conflict is exactly the path
conflict. -/
theorem absent_fields_do_not_conflict_witness :
    event_conflicts
        ⟨2, none, "/a/b/c", none, none, EventState.queued, 0, 0, 0, none⟩
        ⟨1, none, "/a/b", none, none, EventState.queued, 0, 0, 0, none⟩
      = devpath_conflict (some "/a/b/c") (some "/a/b") :=
  absent_fields_do_not_conflict.2.2.2
    ⟨1, none, "/a/b", none, none, EventState.queued, 0, 0, 0, none⟩
    ⟨2, none, "/a/b/c", none, none, EventState.queued, 0, 0, 0, none⟩
    (Or.inl rfl) rfl rfl rfl

/-! ## List helpers -/

lemma map_congr_mem {α β : Type} {l : List α} {f g : α → β}
    (h : ∀ a ∈ l, f a = g a) : l.map f = l.map g := by
  induction l with
  | nil => rfl
  | cons x xs ih =>
    simp only [List.map_cons, h x (List.mem_cons_self x xs)]
    rw [ih fun a ha => h a (List.mem_cons_of_mem x ha)]

lemma map_id_mem {α : Type} {l : List α} {f : α → α}
    (h : ∀ a ∈ l, f a = a) : l.map f = l := by
  rw [map_congr_mem h]
  exact List.map_id l

lemma filter_congr_mem {α : Type} {l : List α} {p q : α → Bool}
    (h : ∀ a ∈ l, p a = q a) : l.filter p = l.filter q := by
  induction l with
  | nil => rfl
  | cons x xs ih =>
    simp only [List.filter_cons, h x (List.mem_cons_self x xs)]
    rw [ih fun a ha => h a (List.mem_cons_of_mem x ha)]

/-! ## Soundness of the queue scan in `event_is_blocked` -/

lemma find_blocker_none_sound {e : Event} : ∀ {l : List Event},
    l.Pairwise (fun a b => a.seqnum < b.seqnum) →
    find_blocker e l = none →
    ∀ x ∈ l, x.seqnum < e.seqnum → event_conflicts e x = false := by
  intro l
  induction l with
  | nil =>
    intro _ _ x hx
    cases hx
  | cons le rest ih =>
    intro hs hf x hx hlt
    rw [List.pairwise_cons] at hs
    simp only [find_blocker] at hf
    by_cases h1 : e.seqnum ≤ le.seqnum
    · rcases List.mem_cons.mp hx with rfl | hx2
      · omega
      · have := hs.1 x hx2
        omega
    · rw [if_neg h1] at hf
      by_cases h2 : event_conflicts e le = true
      · rw [if_pos h2] at hf
        cases hf
      · rw [if_neg h2] at hf
        by_cases h3 : rest.isEmpty = true
        · rw [if_pos h3] at hf
          cases hf
        · rw [if_neg h3] at hf
          rcases List.mem_cons.mp hx with rfl | hx2
          · simp only [Bool.not_eq_true] at h2
            exact h2
          · exact ih hs.2 hf x hx2 hlt

lemma find_blocker_some_sound {e : Event} : ∀ {l : List Event} {b : Nat},
    l.Pairwise (fun a b => a.seqnum < b.seqnum) →
    find_blocker e l = some b →
    b < e.seqnum ∧ (∃ x ∈ l, x.seqnum = b) ∧
      ∀ x ∈ l, x.seqnum < b → event_conflicts e x = false := by
  intro l
  induction l with
  | nil =>
    intro b _ hf
    cases hf
  | cons le rest ih =>
    intro b hs hf
    rw [List.pairwise_cons] at hs
    simp only [find_blocker] at hf
    by_cases h1 : e.seqnum ≤ le.seqnum
    · rw [if_pos h1] at hf
      cases hf
    · rw [if_neg h1] at hf
      by_cases h2 : event_conflicts e le = true
      · rw [if_pos h2] at hf
        injection hf with hf2
        subst hf2
        refine ⟨by omega, ⟨le, List.mem_cons_self le rest, rfl⟩, ?_⟩
        intro x hx hxlt
        rcases List.mem_cons.mp hx with rfl | hx2
        · omega
        · have := hs.1 x hx2
          omega
      · rw [if_neg h2] at hf
        by_cases h3 : rest.isEmpty = true
        · rw [if_pos h3] at hf
          injection hf with hf2
          subst hf2
          refine ⟨by omega, ⟨le, List.mem_cons_self le rest, rfl⟩, ?_⟩
          intro x hx hxlt
          rcases List.mem_cons.mp hx with rfl | hx2
          · omega
          · rw [List.isEmpty_iff] at h3
            subst h3
            cases hx2
        · rw [if_neg h3] at hf
          obtain ⟨hb, ⟨x0, hx0, hx0b⟩, hsound⟩ := ih hs.2 hf
          refine ⟨hb, ⟨x0, List.mem_cons_of_mem le hx0, hx0b⟩, ?_⟩
          intro x hx hxlt
          rcases List.mem_cons.mp hx with rfl | hx2
          · simp only [Bool.not_eq_true] at h2
            exact h2
          · exact hsound x hx2 hxlt

lemma scan_events_no_blocker_sound {e : Event} : ∀ {l : List Event},
    l.Pairwise (fun a b => a.seqnum < b.seqnum) →
    (∀ x ∈ l, x.seqnum < e.blocker_seqnum → event_conflicts e x = false) →
    scan_events e l = ScanResult.no_blocker →
    ∀ x ∈ l, x.seqnum < e.seqnum → event_conflicts e x = false := by
  intro l
  induction l with
  | nil =>
    intro _ _ _ x hx
    cases hx
  | cons le rest ih =>
    intro hs hcs hscan x hx hlt
    have hs2 := hs
    rw [List.pairwise_cons] at hs2
    simp only [scan_events] at hscan
    by_cases h1 : le.seqnum < e.blocker_seqnum
    · rw [if_pos h1] at hscan
      rcases List.mem_cons.mp hx with rfl | hx2
      · exact hcs x hx h1
      · exact ih hs2.2 (fun y hy hylt => hcs y (List.mem_cons_of_mem le hy) hylt)
          hscan x hx2 hlt
    · rw [if_neg h1] at hscan
      by_cases h2 : le.seqnum = e.blocker_seqnum
      · rw [if_pos h2] at hscan
        cases hscan
      · rw [if_neg h2] at hscan
        by_cases h3 : e.seqnum ≤ le.seqnum
        · rcases List.mem_cons.mp hx with rfl | hx2
          · omega
          · have := hs2.1 x hx2
            omega
        · rw [if_neg h3] at hscan
          cases hfb : find_blocker e (le :: rest) with
          | some b =>
            rw [hfb] at hscan
            simp at hscan
          | none =>
            exact find_blocker_none_sound hs hfb x hx hlt

lemma scan_events_blocked_sound {e : Event} : ∀ {l : List Event} {b : Nat},
    l.Pairwise (fun a b => a.seqnum < b.seqnum) →
    (∀ x ∈ l, x.seqnum < e.blocker_seqnum → event_conflicts e x = false) →
    scan_events e l = ScanResult.blocked b →
    b < e.seqnum ∧ (∃ x ∈ l, x.seqnum = b) ∧
      ∀ x ∈ l, x.seqnum < b → event_conflicts e x = false := by
  intro l
  induction l with
  | nil =>
    intro b _ _ hscan
    cases hscan
  | cons le rest ih =>
    intro b hs hcs hscan
    have hs2 := hs
    rw [List.pairwise_cons] at hs2
    simp only [scan_events] at hscan
    by_cases h1 : le.seqnum < e.blocker_seqnum
    · rw [if_pos h1] at hscan
      obtain ⟨hb, ⟨x0, hx0, hx0b⟩, hsound⟩ :=
        ih hs2.2 (fun y hy hylt => hcs y (List.mem_cons_of_mem le hy) hylt) hscan
      refine ⟨hb, ⟨x0, List.mem_cons_of_mem le hx0, hx0b⟩, ?_⟩
      intro x hx hxlt
      rcases List.mem_cons.mp hx with rfl | hx2
      · exact hcs x hx h1
      · exact hsound x hx2 hxlt
    · rw [if_neg h1] at hscan
      by_cases h2 : le.seqnum = e.blocker_seqnum
      · rw [if_pos h2] at hscan
        cases hscan
      · rw [if_neg h2] at hscan
        by_cases h3 : e.seqnum ≤ le.seqnum
        · rw [if_pos h3] at hscan
          cases hscan
        · rw [if_neg h3] at hscan
          cases hfb : find_blocker e (le :: rest) with
          | some b2 =>
            rw [hfb] at hscan
            simp only [ScanResult.blocked.injEq] at hscan
            subst hscan
            exact find_blocker_some_sound hs hfb
          | none =>
            rw [hfb] at hscan
            simp at hscan

lemma scan_events_blocked_cached_exists {e : Event} : ∀ {l : List Event},
    scan_events e l = ScanResult.blocked_cached →
    ∃ x ∈ l, x.seqnum = e.blocker_seqnum := by
  intro l
  induction l with
  | nil =>
    intro hscan
    cases hscan
  | cons le rest ih =>
    intro hscan
    simp only [scan_events] at hscan
    by_cases h1 : le.seqnum < e.blocker_seqnum
    · rw [if_pos h1] at hscan
      obtain ⟨x, hx, hxb⟩ := ih hscan
      exact ⟨x, List.mem_cons_of_mem le hx, hxb⟩
    · rw [if_neg h1] at hscan
      by_cases h2 : le.seqnum = e.blocker_seqnum
      · exact ⟨le, List.mem_cons_self le rest, h2⟩
      · rw [if_neg h2] at hscan
        by_cases h3 : e.seqnum ≤ le.seqnum
        · rw [if_pos h3] at hscan
          cases hscan
        · rw [if_neg h3] at hscan
          cases hfb : find_blocker e (le :: rest) with
          | some b2 =>
            rw [hfb] at hscan
            simp at hscan
          | none =>
            rw [hfb] at hscan
            simp at hscan

/-- The first scan loop re-finds a cached blocker that is still in the
(sorted) queue: the memoized "old blocker still exists" path. -/
lemma scan_events_cache_hit {e : Event} : ∀ {l : List Event},
    l.Pairwise (fun a b => a.seqnum < b.seqnum) →
    (∃ x ∈ l, x.seqnum = e.blocker_seqnum) →
    scan_events e l = ScanResult.blocked_cached := by
  intro l
  induction l with
  | nil =>
    rintro _ ⟨x, hx, -⟩
    cases hx
  | cons le rest ih =>
    rintro hs ⟨x, hx, hxb⟩
    rw [List.pairwise_cons] at hs
    simp only [scan_events]
    by_cases h1 : le.seqnum < e.blocker_seqnum
    · rw [if_pos h1]
      apply ih hs.2
      rcases List.mem_cons.mp hx with rfl | hx2
      · omega
      · exact ⟨x, hx2, hxb⟩
    · by_cases h2 : le.seqnum = e.blocker_seqnum
      · rw [if_neg h1, if_pos h2]
      · exfalso
        rcases List.mem_cons.mp hx with rfl | hx2
        · exact h2 hxb
        · have := hs.1 x hx2
          omega

/-! ## Soundness of `event_is_blocked_core` and `event_is_blocked` -/

lemma event_is_blocked_core_false {l : List Event} {e : Event} {b : Nat}
    (hs : l.Pairwise (fun a b => a.seqnum < b.seqnum))
    (hcs : ∀ x ∈ l, x.seqnum < e.blocker_seqnum → event_conflicts e x = false)
    (h : event_is_blocked_core l e = (false, b)) :
    b = e.seqnum ∧ ∀ x ∈ l, x.seqnum < e.seqnum → event_conflicts e x = false := by
  simp only [event_is_blocked_core] at h
  by_cases hm : e.blocker_seqnum = e.seqnum
  · rw [if_pos hm] at h
    simp only [Prod.mk.injEq] at h
    obtain ⟨-, h2⟩ := h
    subst h2
    exact ⟨hm, fun x hx hlt => hcs x hx (hm ▸ hlt)⟩
  · rw [if_neg hm] at h
    cases hscan : scan_events e l with
    | blocked_cached =>
      rw [hscan] at h
      simp at h
    | blocked b2 =>
      rw [hscan] at h
      simp at h
    | no_blocker =>
      rw [hscan] at h
      simp only [Prod.mk.injEq] at h
      obtain ⟨-, h2⟩ := h
      subst h2
      exact ⟨rfl, scan_events_no_blocker_sound hs hcs hscan⟩

lemma event_is_blocked_core_true {l : List Event} {e : Event} {b : Nat}
    (hs : l.Pairwise (fun a b => a.seqnum < b.seqnum))
    (hcs : ∀ x ∈ l, x.seqnum < e.blocker_seqnum → event_conflicts e x = false)
    (hle : e.blocker_seqnum ≤ e.seqnum)
    (h : event_is_blocked_core l e = (true, b)) :
    b ≤ e.seqnum ∧ b ≠ e.seqnum ∧ (∃ x ∈ l, x.seqnum = b) ∧
      ∀ x ∈ l, x.seqnum < b → event_conflicts e x = false := by
  simp only [event_is_blocked_core] at h
  by_cases hm : e.blocker_seqnum = e.seqnum
  · rw [if_pos hm] at h
    simp at h
  · rw [if_neg hm] at h
    cases hscan : scan_events e l with
    | blocked_cached =>
      rw [hscan] at h
      simp only [Prod.mk.injEq] at h
      obtain ⟨-, h2⟩ := h
      subst h2
      exact ⟨hle, hm, scan_events_blocked_cached_exists hscan, hcs⟩
    | blocked b2 =>
      rw [hscan] at h
      simp only [Prod.mk.injEq] at h
      obtain ⟨-, h2⟩ := h
      subst h2
      obtain ⟨hb, hex, hsound⟩ := scan_events_blocked_sound hs hcs hscan
      exact ⟨by omega, by omega, hex, hsound⟩
    | no_blocker =>
      rw [hscan] at h
      simp at h

lemma event_is_blocked_some_ok (now : Nat) (l : List Event) (e : Event) :
    ∃ rb, event_is_blocked (some now) l e = Except.ok rb := by
  simp only [event_is_blocked]
  by_cases h : 0 < e.retry_again_next_usec
  · rw [if_pos h]
    by_cases h2 : now < e.retry_again_next_usec
    · rw [if_pos h2]
      exact ⟨_, rfl⟩
    · rw [if_neg h2]
      exact ⟨_, rfl⟩
  · rw [if_neg h]
    exact ⟨_, rfl⟩

lemma event_is_blocked_false_sound {now : Nat} {clock : Option Nat}
    {l : List Event} {e : Event} {b : Nat}
    (hs : l.Pairwise (fun a b => a.seqnum < b.seqnum))
    (hcs : ∀ x ∈ l, x.seqnum < e.blocker_seqnum → event_conflicts e x = false)
    (hclock : clock = some now)
    (h : event_is_blocked clock l e = Except.ok (false, b)) :
    b = e.seqnum ∧ ∀ x ∈ l, x.seqnum < e.seqnum → event_conflicts e x = false := by
  subst hclock
  simp only [event_is_blocked] at h
  by_cases h1 : 0 < e.retry_again_next_usec
  · rw [if_pos h1] at h
    by_cases h2 : now < e.retry_again_next_usec
    · rw [if_pos h2] at h
      simp at h
    · rw [if_neg h2] at h
      injection h with h3
      exact event_is_blocked_core_false hs hcs h3
  · rw [if_neg h1] at h
    injection h with h3
    exact event_is_blocked_core_false hs hcs h3

lemma event_is_blocked_true_cache {now : Nat} {clock : Option Nat}
    {l : List Event} {e : Event} {b : Nat}
    (hs : l.Pairwise (fun a b => a.seqnum < b.seqnum))
    (hcs : ∀ x ∈ l, x.seqnum < e.blocker_seqnum → event_conflicts e x = false)
    (hle : e.blocker_seqnum ≤ e.seqnum)
    (hclock : clock = some now)
    (h : event_is_blocked clock l e = Except.ok (true, b)) :
    b ≤ e.seqnum ∧ ∀ x ∈ l, x.seqnum < b → event_conflicts e x = false := by
  subst hclock
  simp only [event_is_blocked] at h
  by_cases h1 : 0 < e.retry_again_next_usec
  · rw [if_pos h1] at h
    by_cases h2 : now < e.retry_again_next_usec
    · rw [if_pos h2] at h
      simp only [Except.ok.injEq, Prod.mk.injEq] at h
      obtain ⟨-, h3⟩ := h
      subst h3
      exact ⟨hle, hcs⟩
    · rw [if_neg h2] at h
      injection h with h3
      obtain ⟨ha, -, -, hd⟩ := event_is_blocked_core_true hs hcs hle h3
      exact ⟨ha, hd⟩
  · rw [if_neg h1] at h
    injection h with h3
    obtain ⟨ha, -, -, hd⟩ := event_is_blocked_core_true hs hcs hle h3
    exact ⟨ha, hd⟩

/-! ## The queue invariant and its preservation -/

lemma event_conflicts_congr {a a2 b b2 : Event}
    (ha : SameIdent a a2) (hb : SameIdent b b2) :
    event_conflicts a b = event_conflicts a2 b2 := by
  obtain ⟨-, h1, h2, h3, h4⟩ := ha
  obtain ⟨-, h5, h6, h7, h8⟩ := hb
  simp only [event_conflicts, h1, h2, h3, h4, h5, h6, h7, h8]

lemma seqnum_inj : ∀ {l : List Event},
    l.Pairwise (fun a b => a.seqnum < b.seqnum) →
    ∀ {x y : Event}, x ∈ l → y ∈ l → x.seqnum = y.seqnum → x = y := by
  intro l
  induction l with
  | nil =>
    intro _ x y hx
    cases hx
  | cons a t ih =>
    intro hs x y hx hy hxy
    rw [List.pairwise_cons] at hs
    rcases List.mem_cons.mp hx with rfl | hx2 <;>
      rcases List.mem_cons.mp hy with rfl | hy2
    · rfl
    · have := hs.1 y hy2
      omega
    · have := hs.1 x hx2
      omega
    · exact ih hs.2 hx2 hy2 hxy

/-- A pointwise update that keeps identity, blocker cache, and does not
newly set `RUNNING` preserves the queue invariant. -/
lemma EInv_map {l : List Event} {f : Event → Event}
    (hid : ∀ e ∈ l, SameIdent (f e) e)
    (hb : ∀ e ∈ l, (f e).blocker_seqnum = e.blocker_seqnum)
    (hst : ∀ e ∈ l, (f e).state = EventState.running → e.state = EventState.running)
    (h : EInv l) : EInv (l.map f) := by
  have hseq : ∀ e ∈ l, (f e).seqnum = e.seqnum := fun e he => (hid e he).1
  constructor
  · rw [List.pairwise_map]
    exact h.sorted.imp_of_mem fun {a} {b} ha hb2 hr => by
      rw [hseq a ha, hseq b hb2]
      exact hr
  · intro e2 he2
    obtain ⟨e, he, rfl⟩ := List.mem_map.mp he2
    rw [hb e he, hseq e he]
    exact h.cache_le e he
  · intro e2 he2 x2 hx2 hlt
    obtain ⟨e, he, rfl⟩ := List.mem_map.mp he2
    obtain ⟨x, hx, rfl⟩ := List.mem_map.mp hx2
    rw [event_conflicts_congr (hid e he) (hid x hx)]
    apply h.cache_sound e he x hx
    rw [← hseq x hx, ← hb e he]
    exact hlt
  · intro e1m he1m e2m he2m hlt hc
    obtain ⟨e1, he1, rfl⟩ := List.mem_map.mp he1m
    obtain ⟨e2, he2, rfl⟩ := List.mem_map.mp he2m
    rw [event_conflicts_congr (hid e2 he2) (hid e1 he1)] at hc
    have hlt2 : e1.seqnum < e2.seqnum := by
      rw [← hseq e1 he1, ← hseq e2 he2]
      exact hlt
    intro hrun
    exact h.serial e1 he1 e2 he2 hlt2 hc (hst e2 he2 hrun)

lemma EInv_filter {l : List Event} (p : Event → Bool) (h : EInv l) :
    EInv (l.filter p) := by
  constructor
  · exact h.sorted.filter p
  · intro e he
    exact h.cache_le e (List.mem_of_mem_filter he)
  · intro e he x hx hlt
    exact h.cache_sound e (List.mem_of_mem_filter he) x (List.mem_of_mem_filter hx) hlt
  · intro e1 he1 e2 he2 hlt hc
    exact h.serial e1 (List.mem_of_mem_filter he1) e2 (List.mem_of_mem_filter he2) hlt hc

/-- Appending a fresh queued event at the tail preserves the invariant
(the `event_queue_insert` case). -/
lemma EInv_append_fresh {l : List Event} {ev : Event} (h : EInv l)
    (hfresh : ∀ e ∈ l, e.seqnum < ev.seqnum)
    (hstate : ev.state = EventState.queued)
    (hblocker : ev.blocker_seqnum = 0) :
    EInv (l ++ [ev]) := by
  have hmem : ∀ x ∈ l ++ [ev], x ∈ l ∨ x = ev := by
    intro x hx
    rcases List.mem_append.mp hx with h1 | h1
    · exact Or.inl h1
    · exact Or.inr (List.mem_singleton.mp h1)
  constructor
  · rw [List.pairwise_append]
    refine ⟨h.sorted, List.pairwise_singleton _ _, ?_⟩
    intro a ha b hb
    rw [List.mem_singleton.mp hb]
    exact hfresh a ha
  · intro e he
    rcases hmem e he with h1 | rfl
    · exact h.cache_le e h1
    · rw [hblocker]
      omega
  · intro e he x hx hlt
    rcases hmem e he with h1 | rfl
    · rcases hmem x hx with h2 | rfl
      · exact h.cache_sound e h1 x h2 hlt
      · exact absurd hlt (by have := h.cache_le e h1; have := hfresh e h1; omega)
    · rw [hblocker] at hlt
      exact absurd hlt (by omega)
  · intro e1 he1 e2 he2 hlt hc
    rcases hmem e2 he2 with h2 | rfl
    · rcases hmem e1 he1 with h1 | rfl
      · exact h.serial e1 h1 e2 h2 hlt hc
      · exact absurd hlt (by have := hfresh e2 h2; omega)
    · rw [hstate]
      intro hcon
      cases hcon

/-- Writing a sound blocker cache into an event preserves the invariant. -/
lemma EInv_set_blocker {l : List Event} {e : Event} {b : Nat} (h : EInv l)
    (he : e ∈ l) (hble : b ≤ e.seqnum)
    (hsound : ∀ x ∈ l, x.seqnum < b → event_conflicts e x = false) :
    EInv (set_event_blocker e.seqnum b l) := by
  unfold set_event_blocker
  have hid : ∀ x ∈ l, SameIdent
      (if x.seqnum = e.seqnum then { x with blocker_seqnum := b } else x) x := by
    intro x hx
    unfold SameIdent
    split <;> exact ⟨rfl, rfl, rfl, rfl, rfl⟩
  have hseq : ∀ x ∈ l,
      (if x.seqnum = e.seqnum then { x with blocker_seqnum := b } else x).seqnum
        = x.seqnum := fun x hx => (hid x hx).1
  have hstate : ∀ x : Event,
      (if x.seqnum = e.seqnum then { x with blocker_seqnum := b } else x).state
        = x.state := by
    intro x
    split <;> rfl
  constructor
  · rw [List.pairwise_map]
    exact h.sorted.imp_of_mem fun {a} {c} ha hc hr => by
      rw [hseq a ha, hseq c hc]
      exact hr
  · intro e2 he2
    obtain ⟨x, hx, rfl⟩ := List.mem_map.mp he2
    rw [hseq x hx]
    by_cases hx2 : x.seqnum = e.seqnum
    · have hxe : x = e := seqnum_inj h.sorted hx he hx2
      subst hxe
      rw [if_pos hx2]
      exact hble
    · rw [if_neg hx2]
      exact h.cache_le x hx
  · intro e2 he2 x2 hx2m hlt
    obtain ⟨x, hx, rfl⟩ := List.mem_map.mp he2
    obtain ⟨x0, hx0, rfl⟩ := List.mem_map.mp hx2m
    rw [event_conflicts_congr (hid x hx) (hid x0 hx0)]
    rw [hseq x0 hx0] at hlt
    by_cases hc2 : x.seqnum = e.seqnum
    · have hxe : x = e := seqnum_inj h.sorted hx he hc2
      subst hxe
      rw [if_pos hc2] at hlt
      exact hsound x0 hx0 hlt
    · rw [if_neg hc2] at hlt
      exact h.cache_sound x hx x0 hx0 hlt
  · intro e1m he1m e2m he2m hlt hc
    obtain ⟨e1, he1, rfl⟩ := List.mem_map.mp he1m
    obtain ⟨e2, he2, rfl⟩ := List.mem_map.mp he2m
    rw [event_conflicts_congr (hid e2 he2) (hid e1 he1)] at hc
    rw [hseq e1 he1, hseq e2 he2] at hlt
    rw [hstate e2]
    exact h.serial e1 he1 e2 he2 hlt hc

/-- Setting an event `RUNNING` preserves the invariant when the blocking
analysis proved that no earlier queue entry conflicts with it. -/
lemma EInv_set_running {l : List Event} {v : Event} {pid : Nat} (h : EInv l)
    (hv : v ∈ l)
    (hsound : ∀ x ∈ l, x.seqnum < v.seqnum → event_conflicts v x = false) :
    EInv (set_event_running v.seqnum pid l) := by
  unfold set_event_running
  have hid : ∀ x ∈ l, SameIdent
      (if x.seqnum = v.seqnum then
        { x with state := EventState.running, worker := some pid } else x) x := by
    intro x hx
    unfold SameIdent
    split <;> exact ⟨rfl, rfl, rfl, rfl, rfl⟩
  have hseq : ∀ x ∈ l,
      (if x.seqnum = v.seqnum then
        { x with state := EventState.running, worker := some pid } else x).seqnum
        = x.seqnum := fun x hx => (hid x hx).1
  have hblk : ∀ x : Event,
      (if x.seqnum = v.seqnum then
        { x with state := EventState.running, worker := some pid } else x).blocker_seqnum
        = x.blocker_seqnum := by
    intro x
    split <;> rfl
  constructor
  · rw [List.pairwise_map]
    exact h.sorted.imp_of_mem fun {a} {c} ha hc hr => by
      rw [hseq a ha, hseq c hc]
      exact hr
  · intro e2 he2
    obtain ⟨x, hx, rfl⟩ := List.mem_map.mp he2
    rw [hseq x hx, hblk x]
    exact h.cache_le x hx
  · intro e2 he2 x2 hx2m hlt
    obtain ⟨x, hx, rfl⟩ := List.mem_map.mp he2
    obtain ⟨x0, hx0, rfl⟩ := List.mem_map.mp hx2m
    rw [event_conflicts_congr (hid x hx) (hid x0 hx0)]
    rw [hseq x0 hx0, hblk x] at hlt
    exact h.cache_sound x hx x0 hx0 hlt
  · intro e1m he1m e2m he2m hlt hc
    obtain ⟨e1, he1, rfl⟩ := List.mem_map.mp he1m
    obtain ⟨e2, he2, rfl⟩ := List.mem_map.mp he2m
    rw [event_conflicts_congr (hid e2 he2) (hid e1 he1)] at hc
    rw [hseq e1 he1, hseq e2 he2] at hlt
    by_cases hc2 : e2.seqnum = v.seqnum
    · have hve : e2 = v := seqnum_inj h.sorted he2 hv hc2
      subst hve
      rw [hsound e1 he1 (hc2 ▸ hlt)] at hc
      cases hc
    · rw [if_neg hc2]
      exact h.serial e1 he1 e2 he2 hlt hc

lemma SameIdent_refl (x : Event) : SameIdent x x := ⟨rfl, rfl, rfl, rfl, rfl⟩

lemma SameIdent_set_blocker (seq b : Nat) (x : Event) :
    SameIdent (if x.seqnum = seq then { x with blocker_seqnum := b } else x) x := by
  unfold SameIdent
  split <;> exact ⟨rfl, rfl, rfl, rfl, rfl⟩

lemma SameIdent_set_running (seq pid : Nat) (x : Event) :
    SameIdent (if x.seqnum = seq then
      { x with state := EventState.running, worker := some pid } else x) x := by
  unfold SameIdent
  split <;> exact ⟨rfl, rfl, rfl, rfl, rfl⟩

lemma manager_event_run_events (env : RunEnv) (i : Nat) (st : Manager) (seq : Nat) :
    (manager_event_run env i st seq).2.events = st.events ∨
    ∃ pid, (manager_event_run env i st seq).2.events = set_event_running seq pid st.events := by
  unfold manager_event_run
  cases hrun : event_run (env.accept i) (env.spawn_ok i) (env.newpid i)
      st.children_max st.workers seq with
  | mk r rest =>
    cases rest with
    | mk ws att =>
      cases att with
      | none => exact Or.inl rfl
      | some pid => exact Or.inr ⟨pid, rfl⟩

/-- One dispatch of `event_run` preserves the queue invariant provided
any queue entry carrying the dispatched seqnum has been proven free of
earlier conflicting entries. -/
lemma EInv_manager_event_run {env : RunEnv} {i seq : Nat} {st : Manager}
    (h : EInv st.events)
    (hsound : ∀ v ∈ st.events, v.seqnum = seq →
      ∀ x ∈ st.events, x.seqnum < v.seqnum → event_conflicts v x = false) :
    EInv (manager_event_run env i st seq).2.events := by
  rcases manager_event_run_events env i st seq with heq | ⟨pid, heq⟩
  · rw [heq]
    exact h
  · rw [heq]
    by_cases hex : ∃ v ∈ st.events, v.seqnum = seq
    · obtain ⟨v, hv, rfl⟩ := hex
      exact EInv_set_running h hv (hsound v hv rfl)
    · have hident : set_event_running seq pid st.events = st.events := by
        unfold set_event_running
        apply map_id_mem
        intro x hx
        rw [if_neg (fun hc => hex ⟨x, hx, hc⟩)]
      rw [hident]
      exact h

/-- The dispatch loop of `event_queue_start` preserves the queue
invariant: an event only goes to `RUNNING` after `event_is_blocked`
returned false, which is sound by the lemmas above. -/
lemma queue_start_loop_EInv (env : RunEnv) (now : Nat) :
    ∀ (seqs : List Nat) (st : Manager) (i : Nat), EInv st.events →
      EInv (queue_start_loop env (some now) st i seqs).events := by
  intro seqs
  induction seqs with
  | nil =>
    intro st i h
    exact h
  | cons seq rest ih =>
    intro st i h
    rw [queue_start_loop]
    split
    · exact ih st (i + 1) h
    · rename_i e hfind
      have he : e ∈ st.events := List.mem_of_find?_eq_some hfind
      have heseq : e.seqnum = seq := by
        have h2 := List.find?_some hfind
        simpa using h2
      by_cases hq : e.state = EventState.queued
      · rw [if_pos hq]
        split
        · rename_i b hib
          apply ih
          have hcache := event_is_blocked_true_cache h.sorted
            (h.cache_sound e he) (h.cache_le e he) rfl hib
          show EInv (set_event_blocker seq b st.events)
          rw [← heseq]
          exact EInv_set_blocker h he hcache.1 hcache.2
        · rename_i b hib
          have hfs := event_is_blocked_false_sound h.sorted (h.cache_sound e he) rfl hib
          have h1 : EInv (set_event_blocker seq b st.events) := by
            rw [← heseq]
            refine EInv_set_blocker h he (le_of_eq hfs.1) ?_
            intro x hx hlt
            exact hfs.2 x hx (hfs.1 ▸ hlt)
          have hrunInv : EInv (manager_event_run env i
              { st with events := set_event_blocker seq b st.events } seq).2.events := by
            apply EInv_manager_event_run h1
            intro v hv hvseq x hx hxlt
            simp only [set_event_blocker] at hv hx
            obtain ⟨x1, hx1, rfl⟩ := List.mem_map.mp hv
            obtain ⟨x0, hx0, rfl⟩ := List.mem_map.mp hx
            rw [event_conflicts_congr (SameIdent_set_blocker seq b x1)
              (SameIdent_set_blocker seq b x0)]
            by_cases hx1s : x1.seqnum = seq
            · have hx1e : x1 = e := seqnum_inj h.sorted hx1 he (hx1s.trans heseq.symm)
              subst hx1e
              rw [(SameIdent_set_blocker seq b x0).1,
                (SameIdent_set_blocker seq b x1).1] at hxlt
              exact hfs.2 x0 hx0 hxlt
            · rw [(SameIdent_set_blocker seq b x1).1] at hvseq
              exact absurd hvseq hx1s
          by_cases hr : (manager_event_run env i
              { st with events := set_event_blocker seq b st.events } seq).1 ≤ 0
          · rw [if_pos hr]
            exact hrunInv
          · rw [if_neg hr]
            exact ih _ (i + 1) hrunInv
        · rename_i u hib
          obtain ⟨rb, hok⟩ := event_is_blocked_some_ok now st.events e
          rw [hok] at hib
          cases hib
      · rw [if_neg hq]
        exact ih st (i + 1) h

/-- The fields of a successfully requeued event: identity, blocker cache
kept, state back to `QUEUED`. -/
lemma event_requeue_some_shape {clock : Option Nat} {e e2 : Event}
    (h : event_requeue clock e = some e2) :
    SameIdent e2 e ∧ e2.blocker_seqnum = e.blocker_seqnum ∧
      e2.state = EventState.queued := by
  cases clock with
  | none =>
    simp only [event_requeue] at h
    cases h
  | some now =>
    simp only [event_requeue] at h
    by_cases hc : 0 < e.retry_again_timeout_usec ∧ e.retry_again_timeout_usec ≤ now
    · rw [if_pos hc] at h
      cases h
    · rw [if_neg hc] at h
      injection h with h2
      subst h2
      exact ⟨⟨rfl, rfl, rfl, rfl, rfl⟩, rfl, rfl⟩

/-- Every manager-loop handler preserves the queue invariant. -/
lemma Step_EInv {st st2 : Manager} (hs : Step st st2) (h : EInv st.events) :
    EInv st2.events := by
  cases hs with
  | insert ev hfresh hstate hblocker hworker =>
    exact EInv_append_fresh h hfresh hstate hblocker
  | assume_unlocked p =>
    show EInv (st.events.map _)
    refine EInv_map ?_ ?_ ?_ h
    · intro e he
      unfold SameIdent
      split <;> exact ⟨rfl, rfl, rfl, rfl, rfl⟩
    · intro e he
      split <;> rfl
    · intro e he hr
      have hstp : (if e.state = EventState.queued ∧ e.retry_again_next_usec ≠ 0 ∧ p e
          then { e with retry_again_next_usec := 0 } else e).state = e.state := by
        split <;> rfl
      rw [hstp] at hr
      exact hr
  | start env now =>
    unfold event_queue_start
    by_cases hg : (st.events.isEmpty || st.exit || st.stop_exec_queue) = true
    · rw [if_pos hg]
      exact h
    · rw [if_neg hg]
      by_cases hk : env.reload_kills = true
      · rw [if_pos hk]
        exact queue_start_loop_EInv env now _ (manager_kill_workers false st) 0 h
      · rw [if_neg hk]
        exact queue_start_loop_EInv env now _ st 0 h
  | notify_done pid =>
    simp only [on_notify_done]
    split
    · exact h
    · split
      · simp only [update_worker_state, event_free_in]
        exact EInv_filter _ h
      · exact h
  | notify_try_again pid now =>
    simp only [on_notify_try_again]
    split
    · exact h
    · split
      · exact h
      · split
        · exact h
        · rename_i seq hwe aux e hfe
          have he : e ∈ st.events := List.mem_of_find?_eq_some hfe
          have heseq : e.seqnum = seq := by
            have h2 := List.find?_some hfe
            simpa using h2
          split
          · simp only [update_worker_state, event_free_in]
            exact EInv_filter _ h
          · rename_i e2 hrq
            obtain ⟨hident, hblk, hstq⟩ := event_requeue_some_shape hrq
            simp only [update_worker_state]
            show EInv (st.events.map _)
            refine EInv_map ?_ ?_ ?_ h
            · intro x hx
              by_cases hxs : x.seqnum = seq
              · have hxe : x = e := seqnum_inj h.sorted hx he (hxs.trans heseq.symm)
                subst hxe
                rw [if_pos hxs]
                exact hident
              · rw [if_neg hxs]
                exact SameIdent_refl x
            · intro x hx
              by_cases hxs : x.seqnum = seq
              · have hxe : x = e := seqnum_inj h.sorted hx he (hxs.trans heseq.symm)
                subst hxe
                rw [if_pos hxs]
                exact hblk
              · rw [if_neg hxs]
            · intro x hx hr
              by_cases hxs : x.seqnum = seq
              · rw [if_pos hxs, hstq] at hr
                cases hr
              · rw [if_neg hxs] at hr
                exact hr
  | sigchld pid =>
    simp only [on_sigchld]
    split
    · exact h
    · split
      · exact EInv_filter _ h
      · exact h
  | kill_workers force => exact h
  | exit_step =>
    show EInv (st.events.filter _)
    exact EInv_filter _ h
  | set_stop b => exact h

lemma reachable_EInv {st : Manager} (h : Reachable st) : EInv st.events := by
  induction h with
  | init cm =>
    constructor <;> simp [manager_new]
  | step _ hstep ih => exact Step_EInv hstep ih

/-! ## C1: the core serialization invariant -/

/-- C1: in every reachable manager state, a later event that conflicts
with an earlier event still present in the queue (QUEUED or RUNNING) is
never in `RUNNING` state. -/
theorem manager_serialization_invariant {st : Manager} (h : Reachable st)
    (e1 e2 : Event) (h1 : e1 ∈ st.events) (h2 : e2 ∈ st.events)
    (hlt : e1.seqnum < e2.seqnum) (hc : event_conflicts e2 e1 = true) :
    e2.state ≠ EventState.running :=
  (reachable_EInv h).serial e1 h1 e2 h2 hlt hc

/-- Witness for C1: after inserting a parent-path event (seqnum 1) and a
child-path event (seqnum 2), the conflicting later event is not
running. -/
theorem manager_serialization_invariant_witness :
    (⟨2, none, "/devices/pci0/usb1/ep1", none, none, EventState.queued,
      0, 0, 0, none⟩ : Event).state ≠ EventState.running :=
  manager_serialization_invariant
    (Reachable.step
      (Reachable.step (Reachable.init 4)
        (Step.insert _
          ⟨1, none, "/devices/pci0/usb1", none, none, EventState.queued, 0, 0, 0, none⟩
          (by intro e he; simp [manager_new] at he) rfl rfl rfl))
      (Step.insert _
        ⟨2, none, "/devices/pci0/usb1/ep1", none, none, EventState.queued, 0, 0, 0, none⟩
        (by
          intro e he
          simp only [event_queue_insert, manager_new, List.nil_append,
            List.mem_singleton] at he
          subst he
          decide) rfl rfl rfl))
    ⟨1, none, "/devices/pci0/usb1", none, none, EventState.queued, 0, 0, 0, none⟩
    ⟨2, none, "/devices/pci0/usb1/ep1", none, none, EventState.queued, 0, 0, 0, none⟩
    (by decide) (by decide) (by decide) (by decide)

/-! ## C3: the worker-count bound -/

lemma try_idle_workers_length (accept : Nat → Bool) (seq : Nat) :
    ∀ ws : List Worker, (try_idle_workers accept seq ws).1.length = ws.length := by
  intro ws
  induction ws with
  | nil => rfl
  | cons w ws ih =>
    simp only [try_idle_workers]
    by_cases h1 : w.state = WorkerState.idle
    · rw [if_pos h1]
      by_cases h2 : accept w.pid = true
      · rw [if_pos h2]
        simp
      · rw [if_neg h2]
        simp [ih]
    · rw [if_neg h1]
      simp [ih]

lemma event_run_length (accept : Nat → Bool) (spawn_ok : Bool) (newpid cmax : Nat)
    (ws : List Worker) (seq : Nat) :
    (event_run accept spawn_ok newpid cmax ws seq).2.1.length ≤ max ws.length cmax := by
  unfold event_run
  split
  · rename_i ws2 pid heq
    have hlen : ws2.length = ws.length := by
      have h2 := try_idle_workers_length accept seq ws
      rw [heq] at h2
      exact h2
    show ws2.length ≤ max ws.length cmax
    omega
  · rename_i ws2 heq
    have hlen : ws2.length = ws.length := by
      have h2 := try_idle_workers_length accept seq ws
      rw [heq] at h2
      exact h2
    by_cases hc : cmax ≤ ws2.length
    · rw [if_pos hc]
      show ws2.length ≤ max ws.length cmax
      omega
    · rw [if_neg hc]
      by_cases hsp : (!spawn_ok || ws2.any fun w => w.pid = newpid) = true
      · rw [if_pos hsp]
        show ws2.length ≤ max ws.length cmax
        omega
      · rw [if_neg hsp]
        show (ws2 ++ [(⟨newpid, WorkerState.running, some seq⟩ : Worker)]).length ≤ max ws.length cmax
        rw [List.length_append]
        simp only [List.length_singleton]
        omega

lemma manager_event_run_cmax (env : RunEnv) (i : Nat) (st : Manager) (seq : Nat) :
    (manager_event_run env i st seq).2.children_max = st.children_max := by
  unfold manager_event_run
  split
  · rfl
  · rfl

lemma manager_event_run_wlen (env : RunEnv) (i : Nat) (st : Manager) (seq : Nat) :
    (manager_event_run env i st seq).2.workers.length ≤
      max st.workers.length st.children_max := by
  unfold manager_event_run
  have hb := event_run_length (env.accept i) (env.spawn_ok i) (env.newpid i)
    st.children_max st.workers seq
  split
  · rename_i r ws heq
    rw [heq] at hb
    exact hb
  · rename_i r ws pid heq
    rw [heq] at hb
    exact hb

lemma update_worker_state_wlen (pid : Nat) (st2 : Manager) :
    (update_worker_state pid st2).workers.length = st2.workers.length := by
  simp [update_worker_state]

lemma event_free_in_wlen (seq : Nat) (st2 : Manager) :
    (event_free_in seq st2).workers.length = st2.workers.length := by
  simp [event_free_in]

lemma queue_start_loop_workers (env : RunEnv) (clock : Option Nat) :
    ∀ (seqs : List Nat) (st : Manager) (i : Nat),
      (queue_start_loop env clock st i seqs).children_max = st.children_max ∧
      (queue_start_loop env clock st i seqs).workers.length ≤
        max st.workers.length st.children_max := by
  intro seqs
  induction seqs with
  | nil =>
    intro st i
    exact ⟨rfl, le_max_left _ _⟩
  | cons seq rest ih =>
    intro st i
    rw [queue_start_loop]
    split
    · exact ih st (i + 1)
    · rename_i e hfind
      by_cases hq : e.state = EventState.queued
      · rw [if_pos hq]
        split
        · rename_i b hib
          exact ih { st with events := set_event_blocker seq b st.events } (i + 1)
        · rename_i b hib
          by_cases hr : (manager_event_run env i
              { st with events := set_event_blocker seq b st.events } seq).1 ≤ 0
          · rw [if_pos hr]
            constructor
            · exact manager_event_run_cmax env i _ seq
            · have h1 : (manager_event_run env i
                  { st with events := set_event_blocker seq b st.events } seq).2.workers.length ≤
                  max st.workers.length st.children_max :=
                manager_event_run_wlen env i _ seq
              exact h1
          · rw [if_neg hr]
            obtain ⟨hcm, hlen⟩ := ih (manager_event_run env i
              { st with events := set_event_blocker seq b st.events } seq).2 (i + 1)
            have h1 : (manager_event_run env i
                { st with events := set_event_blocker seq b st.events } seq).2.workers.length ≤
                max st.workers.length st.children_max :=
              manager_event_run_wlen env i _ seq
            have h2 : (manager_event_run env i
                { st with events := set_event_blocker seq b st.events } seq).2.children_max =
                st.children_max :=
              manager_event_run_cmax env i _ seq
            rw [h2] at hlen
            exact ⟨hcm.trans h2, by omega⟩
        · rename_i u hib
          by_cases hr : (manager_event_run env i st seq).1 ≤ 0
          · rw [if_pos hr]
            exact ⟨manager_event_run_cmax env i st seq, manager_event_run_wlen env i st seq⟩
          · rw [if_neg hr]
            obtain ⟨hcm, hlen⟩ := ih (manager_event_run env i st seq).2 (i + 1)
            have h1 := manager_event_run_wlen env i st seq
            have h2 := manager_event_run_cmax env i st seq
            rw [h2] at hlen
            exact ⟨hcm.trans h2, by omega⟩
      · rw [if_neg hq]
        exact ih st (i + 1)

/-- Every handler keeps the configured maximum unchanged and never pushes
the worker count above `max` of its old value and `children_max` — only
spawning adds a worker, and only strictly below the ceiling. -/
lemma Step_workers_bound {st st2 : Manager} (hs : Step st st2) :
    st2.children_max = st.children_max ∧
    st2.workers.length ≤ max st.workers.length st.children_max := by
  cases hs with
  | insert ev hfresh hstate hblocker hworker =>
    exact ⟨rfl, le_max_left _ _⟩
  | assume_unlocked p =>
    exact ⟨rfl, le_max_left _ _⟩
  | start env now =>
    unfold event_queue_start
    by_cases hg : (st.events.isEmpty || st.exit || st.stop_exec_queue) = true
    · rw [if_pos hg]
      exact ⟨rfl, le_max_left _ _⟩
    · rw [if_neg hg]
      by_cases hk : env.reload_kills = true
      · rw [if_pos hk]
        obtain ⟨hcm, hlen⟩ := queue_start_loop_workers env (some now)
          ((manager_kill_workers false st).events.map (fun e => e.seqnum))
          (manager_kill_workers false st) 0
        have h2 : (manager_kill_workers false st).children_max = st.children_max := rfl
        have h3 : (manager_kill_workers false st).workers.length = st.workers.length := by
          show (kill_workers_list false st.workers).length = st.workers.length
          simp [kill_workers_list]
        rw [h2] at hcm hlen
        rw [h3] at hlen
        exact ⟨hcm, hlen⟩
      · rw [if_neg hk]
        exact queue_start_loop_workers env (some now)
          (st.events.map (fun e => e.seqnum)) st 0
  | notify_done pid =>
    simp only [on_notify_done]
    split
    · exact ⟨rfl, le_max_left _ _⟩
    · split
      · refine ⟨rfl, ?_⟩
        rw [update_worker_state_wlen, event_free_in_wlen]
        exact le_max_left _ _
      · refine ⟨rfl, ?_⟩
        rw [update_worker_state_wlen]
        exact le_max_left _ _
  | notify_try_again pid now =>
    simp only [on_notify_try_again]
    split
    · exact ⟨rfl, le_max_left _ _⟩
    · split
      · exact ⟨rfl, le_max_left _ _⟩
      · split
        · exact ⟨rfl, le_max_left _ _⟩
        · split
          · refine ⟨rfl, ?_⟩
            rw [update_worker_state_wlen, event_free_in_wlen]
            exact le_max_left _ _
          · refine ⟨rfl, ?_⟩
            rw [update_worker_state_wlen]
            show (st.workers.map _).length ≤ max st.workers.length st.children_max
            rw [List.length_map]
            exact le_max_left _ _
  | sigchld pid =>
    simp only [on_sigchld]
    split
    · exact ⟨rfl, le_max_left _ _⟩
    · split
      · refine ⟨rfl, ?_⟩
        have h3 := List.length_filter_le (fun w2 => decide (w2.pid ≠ pid)) st.workers
        have h4 := le_max_left st.workers.length st.children_max
        show (st.workers.filter fun w2 => w2.pid ≠ pid).length ≤
          max st.workers.length st.children_max
        omega
      · refine ⟨rfl, ?_⟩
        have h3 := List.length_filter_le (fun w2 => decide (w2.pid ≠ pid)) st.workers
        have h4 := le_max_left st.workers.length st.children_max
        show (st.workers.filter fun w2 => w2.pid ≠ pid).length ≤
          max st.workers.length st.children_max
        omega
  | kill_workers force =>
    refine ⟨rfl, ?_⟩
    have h3 : (manager_kill_workers force st).workers.length = st.workers.length := by
      show (kill_workers_list force st.workers).length = st.workers.length
      simp [kill_workers_list]
    rw [h3]
    exact le_max_left _ _
  | exit_step =>
    refine ⟨rfl, ?_⟩
    have h3 : (manager_exit st).workers.length = st.workers.length := by
      show (kill_workers_list true
        (event_queue_cleanup { st with exit := true } (some EventState.queued)).workers).length
        = st.workers.length
      simp [kill_workers_list, event_queue_cleanup]
    rw [h3]
    exact le_max_left _ _
  | set_stop b =>
    exact ⟨rfl, le_max_left _ _⟩

/-- C3: across any sequence of manager-loop handlers (dispatch, spawn,
reap, …) with a fixed configured `children_max`, the number of live
worker records never exceeds `children_max`; `event_run` spawns only when
strictly below the ceiling. -/
theorem worker_count_invariant {st : Manager} (h : Reachable st) :
    st.workers.length ≤ st.children_max := by
  induction h with
  | init cm => simp [manager_new]
  | step hre hstep ih =>
    obtain ⟨hcm, hlen⟩ := Step_workers_bound hstep
    rw [hcm]
    omega

/-- Witness for C3: a dispatch pass over a fresh manager with
`children_max = 2` and one queued event keeps the worker table within the
bound. -/
theorem worker_count_invariant_witness :
    (event_queue_start ⟨fun _ _ => true, fun _ => true, fun i => 100 + i, false⟩ (some 5)
      (event_queue_insert (manager_new 2)
        ⟨1, none, "/devices/x", none, none, EventState.queued, 0, 0, 0, none⟩)).workers.length ≤
    (event_queue_start ⟨fun _ _ => true, fun _ => true, fun i => 100 + i, false⟩ (some 5)
      (event_queue_insert (manager_new 2)
        ⟨1, none, "/devices/x", none, none, EventState.queued, 0, 0, 0, none⟩)).children_max :=
  worker_count_invariant
    (Reachable.step
      (Reachable.step (Reachable.init 2)
        (Step.insert _
          ⟨1, none, "/devices/x", none, none, EventState.queued, 0, 0, 0, none⟩
          (by intro e he; simp [manager_new] at he) rfl rfl rfl))
      (Step.start _ ⟨fun _ _ => true, fun _ => true, fun i => 100 + i, false⟩ 5))

/-! ## C4: retry requeue and its bound -/

/-- C4: when a worker reports try-again, a retry deadline that is set and
has passed abandons the event: `event_requeue` frees it (`none`) and the
`on_notify` path removes exactly that event from the queue.  Otherwise the
event is requeued: next retry at now + 200ms, the deadline set to now + 3
minutes exactly when it was unset, the worker detached and the state back
to `QUEUED`.  A requeued event always carries a nonzero deadline that
later requeues preserve, so an always-locked event is abandoned once the
clock passes the deadline — never retried forever. -/
theorem event_requeue_retry_bound (now : Nat) (e : Event) :
    (0 < e.retry_again_timeout_usec → e.retry_again_timeout_usec ≤ now →
        event_requeue (some now) e = none) ∧
    (e.retry_again_timeout_usec = 0 ∨ now < e.retry_again_timeout_usec →
        event_requeue (some now) e = some { e with
          retry_again_next_usec := usec_add now EVENT_RETRY_INTERVAL_USEC,
          retry_again_timeout_usec :=
            if e.retry_again_timeout_usec = 0 then usec_add now EVENT_RETRY_TIMEOUT_USEC
            else e.retry_again_timeout_usec,
          worker := none,
          state := EventState.queued }) ∧
    (∀ e2 : Event, event_requeue (some now) e = some e2 →
        0 < e2.retry_again_timeout_usec ∧
        e2.state = EventState.queued ∧ e2.worker = none ∧
        e2.retry_again_next_usec = usec_add now EVENT_RETRY_INTERVAL_USEC ∧
        (e.retry_again_timeout_usec ≠ 0 →
          e2.retry_again_timeout_usec = e.retry_again_timeout_usec) ∧
        (e.retry_again_timeout_usec = 0 →
          e2.retry_again_timeout_usec = usec_add now EVENT_RETRY_TIMEOUT_USEC)) ∧
    (∀ (st : Manager) (pid seq : Nat) (w : Worker),
        st.workers.find? (fun x => x.pid = pid) = some w → w.event = some seq →
        st.events.find? (fun x => x.seqnum = seq) = some e →
        0 < e.retry_again_timeout_usec → e.retry_again_timeout_usec ≤ now →
        (on_notify_try_again (some now) st pid).events =
          st.events.filter (fun x => x.seqnum ≠ seq)) := by
  have habandon : 0 < e.retry_again_timeout_usec → e.retry_again_timeout_usec ≤ now →
      event_requeue (some now) e = none := by
    intro h1 h2
    simp only [event_requeue]
    rw [if_pos ⟨h1, h2⟩]
  refine ⟨habandon, ?_, ?_, ?_⟩
  · intro h
    simp only [event_requeue]
    rw [if_neg]
    rintro ⟨h1, h2⟩
    rcases h with h | h <;> omega
  · intro e2 h
    simp only [event_requeue] at h
    by_cases hc : 0 < e.retry_again_timeout_usec ∧ e.retry_again_timeout_usec ≤ now
    · rw [if_pos hc] at h
      cases h
    · rw [if_neg hc] at h
      have h2 := (Option.some.injEq _ _ ▸ h)
      subst h2
      by_cases ht : e.retry_again_timeout_usec = 0 <;>
        · simp [ht, usec_add, EVENT_RETRY_TIMEOUT_USEC, USEC_PER_MINUTE, USEC_PER_SEC]
          try omega
  · intro st pid seq w hw hev hfind h1 h2
    simp only [on_notify_try_again, hw, hev, hfind, habandon h1 h2]
    simp [update_worker_state, event_free_in]

/-- Witness for C4: at time 200000000 an event whose deadline 100 has
passed is abandoned. -/
theorem event_requeue_retry_bound_witness :
    event_requeue (some 200000000)
      ⟨7, none, "/devices/sda", none, some "/dev/sda", EventState.running,
        0, 50, 100, some 5⟩ = none :=
  (event_requeue_retry_bound 200000000
      ⟨7, none, "/devices/sda", none, some "/dev/sda", EventState.running,
        0, 50, 100, some 5⟩).1 (by decide) (by decide)

/-! ## C10: shutdown frame effect -/

lemma kill_workers_list_force (ws : List Worker) :
    kill_workers_list true ws = ws.map fun w => { w with state := WorkerState.killed } := by
  unfold kill_workers_list
  apply map_congr_mem
  intro w _
  by_cases h : w.state = WorkerState.killed
  · rw [if_pos h]
    cases w
    simp_all
  · rw [if_neg h, if_neg]
    rintro ⟨_, hf⟩
    cases hf

/-- C10: `manager_exit` sets the exit flag, removes exactly the `QUEUED`
events from the queue (the `RUNNING` ones stay, still linked to their
workers since only queued events are freed), and marks every worker
`KILLED`. -/
theorem manager_exit_frame (st : Manager)
    (hlink : ∀ w ∈ st.workers, ∀ e ∈ st.events, w.event = some e.seqnum →
      e.state = EventState.running) :
    (manager_exit st).exit = true ∧
    (manager_exit st).events = st.events.filter (fun e => e.state = EventState.running) ∧
    (manager_exit st).workers = st.workers.map fun w => { w with state := WorkerState.killed } := by
  refine ⟨rfl, ?_, ?_⟩
  · show (event_queue_cleanup { st with exit := true } (some EventState.queued)).events = _
    simp only [event_queue_cleanup]
    apply filter_congr_mem
    intro e _
    cases h : e.state <;> simp [cleanup_matches, h]
  · show kill_workers_list true
        (event_queue_cleanup { st with exit := true } (some EventState.queued)).workers = _
    have hclean : (event_queue_cleanup { st with exit := true }
        (some EventState.queued)).workers = st.workers := by
      simp only [event_queue_cleanup]
      apply map_id_mem
      intro w hw
      cases hev : w.event with
      | none => rfl
      | some seq =>
        simp only []
        rw [if_neg]
        intro hany
        obtain ⟨e, he, hseq⟩ := List.any_eq_true.mp hany
        obtain ⟨he1, he2⟩ := List.mem_filter.mp he
        have hrun := hlink w hw e he1
          (by rw [hev, decide_eq_true_eq.mp hseq])
        simp only [cleanup_matches, decide_eq_true_eq] at he2
        rw [he2] at hrun
        cases hrun
    rw [hclean, kill_workers_list_force]

/-- Witness for C10: a manager with one running linked event, one queued
event and one idle worker. -/
theorem manager_exit_frame_witness :
    (manager_exit
        { events := [⟨1, none, "/devices/a", none, none, EventState.running, 1, 0, 0, some 9⟩,
                     ⟨2, none, "/devices/b", none, none, EventState.queued, 0, 0, 0, none⟩],
          workers := [⟨9, WorkerState.running, some 1⟩, ⟨4, WorkerState.idle, none⟩],
          children_max := 4, exit := false, stop_exec_queue := false }).events =
      [⟨1, none, "/devices/a", none, none, EventState.running, 1, 0, 0, some 9⟩] ∧
    (manager_exit
        { events := [⟨1, none, "/devices/a", none, none, EventState.running, 1, 0, 0, some 9⟩,
                     ⟨2, none, "/devices/b", none, none, EventState.queued, 0, 0, 0, none⟩],
          workers := [⟨9, WorkerState.running, some 1⟩, ⟨4, WorkerState.idle, none⟩],
          children_max := 4, exit := false, stop_exec_queue := false }).workers =
      [⟨9, WorkerState.killed, some 1⟩, ⟨4, WorkerState.killed, none⟩] := by
  have h := manager_exit_frame
    { events := [⟨1, none, "/devices/a", none, none, EventState.running, 1, 0, 0, some 9⟩,
                 ⟨2, none, "/devices/b", none, none, EventState.queued, 0, 0, 0, none⟩],
      workers := [⟨9, WorkerState.running, some 1⟩, ⟨4, WorkerState.idle, none⟩],
      children_max := 4, exit := false, stop_exec_queue := false }
    (by decide)
  refine ⟨?_, ?_⟩
  · rw [h.2.1]
    decide
  · rw [h.2.2]
    decide

/-! ## Shapes of `try_idle_workers`, `event_run` and the dispatch loop -/

/-- When no idle worker accepts the hand-off, the scan kills every idle
worker and reports no taker. -/
lemma try_idle_workers_none (accept : Nat → Bool) (seq : Nat) : ∀ {ws : List Worker},
    (∀ w ∈ ws, w.state = WorkerState.idle → accept w.pid = false) →
    try_idle_workers accept seq ws = (ws.map kill_on_failed_handoff, none) := by
  intro ws
  induction ws with
  | nil =>
    intro _
    rfl
  | cons w ws ih =>
    intro h
    have hrec := ih fun x hx hxi => h x (List.mem_cons_of_mem w hx) hxi
    simp only [try_idle_workers, List.map_cons, kill_on_failed_handoff]
    by_cases h1 : w.state = WorkerState.idle
    · have hw := h w (List.mem_cons_self w ws) h1
      rw [if_pos h1, if_pos h1, if_neg (by rw [hw]; exact Bool.false_ne_true), hrec]
    · rw [if_neg h1, if_neg h1, hrec]

/-- Scanning a worker table that starts with failing idle workers and a
failing idle worker `w`: the scan kills them all and continues in the
tail. -/
lemma try_idle_workers_split {accept : Nat → Bool} {seq : Nat} {w : Worker}
    {l2 : List Worker}
    (hw : w.state = WorkerState.idle) (hwf : accept w.pid = false) :
    ∀ {l1 : List Worker},
    (∀ x ∈ l1, x.state = WorkerState.idle → accept x.pid = false) →
    try_idle_workers accept seq (l1 ++ w :: l2) =
      (l1.map kill_on_failed_handoff ++ { w with state := WorkerState.killed } ::
        (try_idle_workers accept seq l2).1,
       (try_idle_workers accept seq l2).2) := by
  intro l1
  induction l1 with
  | nil =>
    intro _
    simp only [List.nil_append, List.map_nil, try_idle_workers]
    rw [if_pos hw, if_neg (by rw [hwf]; exact Bool.false_ne_true)]
  | cons x l1 ih =>
    intro h
    have hrec := ih fun y hy hyi => h y (List.mem_cons_of_mem x hy) hyi
    simp only [List.cons_append, try_idle_workers, List.map_cons, kill_on_failed_handoff,
      List.append_eq]
    by_cases h1 : x.state = WorkerState.idle
    · have hx := h x (List.mem_cons_self x _) h1
      rw [if_pos h1, if_pos h1, if_neg (by rw [hx]; exact Bool.false_ne_true), hrec]
    · rw [if_neg h1, if_neg h1, hrec]

/-- If some idle worker accepts, the scan attaches the event: the result
table contains a `RUNNING` worker linked to the event. -/
lemma try_idle_workers_accept (accept : Nat → Bool) (seq : Nat) : ∀ {ws : List Worker},
    (∃ x ∈ ws, x.state = WorkerState.idle ∧ accept x.pid = true) →
    ∃ ws2 pid, try_idle_workers accept seq ws = (ws2, some pid) ∧
      ∃ w2 ∈ ws2, w2.pid = pid ∧ w2.state = WorkerState.running ∧
        w2.event = some seq := by
  intro ws
  induction ws with
  | nil =>
    rintro ⟨x, hx, -⟩
    cases hx
  | cons w ws ih =>
    rintro ⟨x, hx, hxi, hxa⟩
    simp only [try_idle_workers]
    by_cases h1 : w.state = WorkerState.idle
    · by_cases h2 : accept w.pid = true
      · rw [if_pos h1, if_pos h2]
        refine ⟨_, w.pid, rfl, ?_⟩
        exact ⟨{ w with state := WorkerState.running, event := some seq },
          List.mem_cons_self _ _, rfl, rfl, rfl⟩
      · rw [if_pos h1, if_neg h2]
        have hx2 : x ∈ ws := by
          rcases List.mem_cons.mp hx with rfl | hx2
          · exact absurd hxa h2
          · exact hx2
        obtain ⟨ws2, pid, heq, w2, hw2, hp⟩ := ih ⟨x, hx2, hxi, hxa⟩
        rw [heq]
        exact ⟨_, pid, rfl, w2, List.mem_cons_of_mem _ hw2, hp⟩
    · rw [if_neg h1]
      have hx2 : x ∈ ws := by
        rcases List.mem_cons.mp hx with rfl | hx2
        · exact absurd hxi h1
        · exact hx2
      obtain ⟨ws2, pid, heq, w2, hw2, hp⟩ := ih ⟨x, hx2, hxi, hxa⟩
      rw [heq]
      exact ⟨_, pid, rfl, w2, List.mem_cons_of_mem _ hw2, hp⟩

/-- `event_run` with no accepting idle worker at full capacity: result 0,
idle workers killed, nothing attached. -/
lemma event_run_no_capacity (accept : Nat → Bool) (spawn_ok : Bool)
    (newpid cmax : Nat) (ws : List Worker) (seq : Nat)
    (hidle : ∀ w ∈ ws, w.state = WorkerState.idle → accept w.pid = false)
    (hcap : cmax ≤ ws.length) :
    event_run accept spawn_ok newpid cmax ws seq =
      (0, ws.map kill_on_failed_handoff, none) := by
  have htry := try_idle_workers_none accept seq hidle
  unfold event_run
  split
  · rename_i ws2 pid heq
    rw [htry] at heq
    simp at heq
  · rename_i ws2 heq
    rw [htry] at heq
    simp only [Prod.mk.injEq] at heq
    obtain ⟨h1, -⟩ := heq
    subst h1
    rw [if_pos (by rw [List.length_map]; exact hcap)]

lemma manager_event_run_none {env : RunEnv} {i : Nat} {st : Manager} {seq : Nat}
    {r : Int} {ws : List Worker}
    (h : event_run (env.accept i) (env.spawn_ok i) (env.newpid i)
      st.children_max st.workers seq = (r, ws, none)) :
    manager_event_run env i st seq = (r, { st with workers := ws }) := by
  unfold manager_event_run
  split
  · rename_i r2 ws2 heq
    rw [h] at heq
    simp only [Prod.mk.injEq] at heq
    obtain ⟨rfl, rfl, -⟩ := heq
    rfl
  · rename_i r2 ws2 pid heq
    rw [h] at heq
    simp at heq

lemma manager_event_run_some {env : RunEnv} {i : Nat} {st : Manager} {seq : Nat}
    {r : Int} {ws : List Worker} {pid : Nat}
    (h : event_run (env.accept i) (env.spawn_ok i) (env.newpid i)
      st.children_max st.workers seq = (r, ws, some pid)) :
    manager_event_run env i st seq =
      (r, { st with
              workers := ws,
              events := set_event_running seq pid st.events }) := by
  unfold manager_event_run
  split
  · rename_i r2 ws2 heq
    rw [h] at heq
    simp at heq
  · rename_i r2 ws2 pid2 heq
    rw [h] at heq
    simp only [Prod.mk.injEq, Option.some.injEq] at heq
    obtain ⟨rfl, rfl, rfl⟩ := heq
    rfl

/-- Unfolding the dispatch loop at a queued unblocked event. -/
lemma queue_start_loop_cons_run (env : RunEnv) (clock : Option Nat) (st : Manager)
    (i seq : Nat) (rest : List Nat) (e : Event) (b : Nat)
    (hfind : st.events.find? (fun x => x.seqnum = seq) = some e)
    (hq : e.state = EventState.queued)
    (hib : event_is_blocked clock st.events e = Except.ok (false, b)) :
    queue_start_loop env clock st i (seq :: rest) =
      if (manager_event_run env i
          { st with events := set_event_blocker seq b st.events } seq).1 ≤ 0 then
        (manager_event_run env i
          { st with events := set_event_blocker seq b st.events } seq).2
      else
        queue_start_loop env clock
          (manager_event_run env i
            { st with events := set_event_blocker seq b st.events } seq).2
          (i + 1) rest := by
  rw [queue_start_loop]
  split
  · rename_i hnone
    rw [hfind] at hnone
    cases hnone
  · rename_i e2 hfind2
    rw [hfind] at hfind2
    injection hfind2 with hfind2
    subst hfind2
    rw [if_pos hq]
    split
    · rename_i b2 hib2
      rw [hib] at hib2
      simp at hib2
    · rename_i b2 hib2
      rw [hib] at hib2
      simp only [Except.ok.injEq, Prod.mk.injEq] at hib2
      obtain ⟨-, rfl⟩ := hib2
      rfl
    · rename_i u hib2
      rw [hib] at hib2
      simp at hib2

/-- Unfolding the dispatch loop at a queued event whose blocking analysis
fails: fail-open, the event is handed to `event_run` unchanged. -/
lemma queue_start_loop_cons_error (env : RunEnv) (clock : Option Nat) (st : Manager)
    (i seq : Nat) (rest : List Nat) (e : Event) (u : Unit)
    (hfind : st.events.find? (fun x => x.seqnum = seq) = some e)
    (hq : e.state = EventState.queued)
    (hib : event_is_blocked clock st.events e = Except.error u) :
    queue_start_loop env clock st i (seq :: rest) =
      if (manager_event_run env i st seq).1 ≤ 0 then
        (manager_event_run env i st seq).2
      else
        queue_start_loop env clock (manager_event_run env i st seq).2 (i + 1) rest := by
  rw [queue_start_loop]
  split
  · rename_i hnone
    rw [hfind] at hnone
    cases hnone
  · rename_i e2 hfind2
    rw [hfind] at hfind2
    injection hfind2 with hfind2
    subst hfind2
    rw [if_pos hq]
    split
    · rename_i b2 hib2
      rw [hib] at hib2
      simp at hib2
    · rename_i b2 hib2
      rw [hib] at hib2
      simp at hib2
    · rfl

/-! ## C6: no capacity stops the dispatch pass -/

/-- C6: when an unblocked `QUEUED` event finds no idle worker that
accepts it and the worker table is at the concurrency ceiling,
`event_run` returns 0 ("no capacity"), the dispatch pass stops right
there, the event keeps its `QUEUED` state and no later event of the pass
is dispatched: the only queue change of the whole pass is the event's
blocker-cache write, which touches no state field. -/
theorem event_run_no_capacity_stops_pass (env : RunEnv) (clock : Option Nat)
    (st : Manager) (i seq : Nat) (rest : List Nat) (e : Event) (b : Nat)
    (hfind : st.events.find? (fun x => x.seqnum = seq) = some e)
    (hq : e.state = EventState.queued)
    (hib : event_is_blocked clock st.events e = Except.ok (false, b))
    (hidle : ∀ w ∈ st.workers, w.state = WorkerState.idle → env.accept i w.pid = false)
    (hcap : st.children_max ≤ st.workers.length) :
    (event_run (env.accept i) (env.spawn_ok i) (env.newpid i) st.children_max
        st.workers seq).1 = 0 ∧
    (queue_start_loop env clock st i (seq :: rest)).events =
      set_event_blocker seq b st.events ∧
    (set_event_blocker seq b st.events).map (fun x => x.state) =
      st.events.map (fun x => x.state) := by
  have hrun := event_run_no_capacity (env.accept i) (env.spawn_ok i) (env.newpid i)
    st.children_max st.workers seq hidle hcap
  have hrun1 : event_run (env.accept i) (env.spawn_ok i) (env.newpid i)
      ({ st with events := set_event_blocker seq b st.events }).children_max
      ({ st with events := set_event_blocker seq b st.events }).workers seq =
      (0, st.workers.map kill_on_failed_handoff, none) := hrun
  have hmer := manager_event_run_none hrun1
  refine ⟨by rw [hrun], ?_, ?_⟩
  · rw [queue_start_loop_cons_run env clock st i seq rest e b hfind hq hib, hmer]
    rfl
  · simp only [set_event_blocker]
    rw [List.map_map]
    apply map_congr_mem
    intro x hx
    simp only [Function.comp]
    split <;> rfl

/-- Witness for C6: a single queued event, one busy worker, ceiling 1. -/
theorem event_run_no_capacity_stops_pass_witness :
    (event_run ((⟨fun _ _ => false, fun _ => true, fun _ => 50,
        false⟩ : RunEnv).accept 0) true 50 1
      [⟨3, WorkerState.running, some 9⟩] 1).1 = 0 ∧
    (queue_start_loop ⟨fun _ _ => false, fun _ => true, fun _ => 50, false⟩ (some 0)
      { events := [⟨1, none, "/devices/a", none, none, EventState.queued, 0, 0, 0, none⟩],
        workers := [⟨3, WorkerState.running, some 9⟩],
        children_max := 1, exit := false, stop_exec_queue := false } 0 [1]).events =
      set_event_blocker 1 1
        [⟨1, none, "/devices/a", none, none, EventState.queued, 0, 0, 0, none⟩] ∧
    (set_event_blocker 1 1
        [⟨1, none, "/devices/a", none, none, EventState.queued, 0, 0, 0, none⟩]).map
        (fun x => x.state) =
      [(⟨1, none, "/devices/a", none, none, EventState.queued, 0, 0, 0,
        none⟩ : Event)].map (fun x => x.state) := by
  have h := event_run_no_capacity_stops_pass
    ⟨fun _ _ => false, fun _ => true, fun _ => 50, false⟩ (some 0)
    { events := [⟨1, none, "/devices/a", none, none, EventState.queued, 0, 0, 0, none⟩],
      workers := [⟨3, WorkerState.running, some 9⟩],
      children_max := 1, exit := false, stop_exec_queue := false } 0 1 []
    ⟨1, none, "/devices/a", none, none, EventState.queued, 0, 0, 0, none⟩ 1
    (by decide) rfl rfl (by decide) (by decide)
  exact h

/-! ## C7: hand-off failure recovery -/

/-- C7: when dispatch fails to hand the event to an idle worker, that
worker is killed (state `KILLED`) and scanning continues in the same
pass: if a later idle worker accepts, or none does but there is spawn
capacity, `event_run` returns 1 with the event attached (a `RUNNING`
worker linked to it) — the event is not lost. -/
theorem handoff_failure_recovery (accept : Nat → Bool) (spawn_ok : Bool)
    (newpid cmax seq : Nat) (l1 l2 : List Worker) (w : Worker)
    (hw : w.state = WorkerState.idle) (hwf : accept w.pid = false)
    (h1 : ∀ x ∈ l1, x.state = WorkerState.idle → accept x.pid = false)
    (hrec : (∃ x ∈ l2, x.state = WorkerState.idle ∧ accept x.pid = true) ∨
        ((∀ x ∈ l2, x.state = WorkerState.idle → accept x.pid = false) ∧
         (l1 ++ w :: l2).length < cmax ∧ spawn_ok = true ∧
         (∀ x ∈ l1 ++ w :: l2, x.pid ≠ newpid))) :
    ∃ ws2 pid,
      event_run accept spawn_ok newpid cmax (l1 ++ w :: l2) seq = (1, ws2, some pid) ∧
      (∃ m1 m2, ws2 = m1 ++ { w with state := WorkerState.killed } :: m2) ∧
      ∃ w2 ∈ ws2, w2.pid = pid ∧ w2.state = WorkerState.running ∧
        w2.event = some seq := by
  have hkw : kill_on_failed_handoff w = { w with state := WorkerState.killed } := by
    unfold kill_on_failed_handoff
    rw [if_pos hw]
  rcases hrec with hacc2 | ⟨hfail2, hlen, hspawn, hfresh⟩
  · obtain ⟨ws2', pid, htry2, w2, hw2, hp⟩ := try_idle_workers_accept accept seq hacc2
    have hsplit2 : try_idle_workers accept seq (l1 ++ w :: l2) =
        (l1.map kill_on_failed_handoff ++
          ({ w with state := WorkerState.killed } :: ws2'), some pid) := by
      rw [try_idle_workers_split hw hwf h1, htry2]
    have hev : event_run accept spawn_ok newpid cmax (l1 ++ w :: l2) seq =
        (1, l1.map kill_on_failed_handoff ++
          ({ w with state := WorkerState.killed } :: ws2'), some pid) := by
      unfold event_run
      split
      · rename_i ws3 pid3 heq
        rw [hsplit2] at heq
        simp only [Prod.mk.injEq, Option.some.injEq] at heq
        obtain ⟨h2, h3⟩ := heq
        subst h2
        subst h3
        rfl
      · rename_i ws3 heq
        rw [hsplit2] at heq
        simp at heq
    refine ⟨_, pid, hev, ⟨l1.map kill_on_failed_handoff, ws2', rfl⟩, ?_⟩
    exact ⟨w2, List.mem_append.mpr (Or.inr (List.mem_cons_of_mem _ hw2)), hp⟩
  · have hallfail : ∀ x ∈ l1 ++ w :: l2, x.state = WorkerState.idle →
        accept x.pid = false := by
      intro x hx hxi
      rcases List.mem_append.mp hx with hx1 | hx1
      · exact h1 x hx1 hxi
      · rcases List.mem_cons.mp hx1 with rfl | hx2
        · exact hwf
        · exact hfail2 x hx2 hxi
    have htry := try_idle_workers_none accept seq hallfail
    have hany : (((l1 ++ w :: l2).map kill_on_failed_handoff).any
        (fun x => x.pid = newpid)) = false := by
      rw [← Bool.not_eq_true]
      intro hcon
      obtain ⟨x, hx, hpx⟩ := List.any_eq_true.mp hcon
      obtain ⟨x0, hx0, rfl⟩ := List.mem_map.mp hx
      have hne := hfresh x0 hx0
      have hpid : (kill_on_failed_handoff x0).pid = x0.pid := by
        unfold kill_on_failed_handoff
        split <;> rfl
      rw [hpid] at hpx
      exact hne (decide_eq_true_eq.mp hpx)
    have hev : event_run accept spawn_ok newpid cmax (l1 ++ w :: l2) seq =
        (1, (l1 ++ w :: l2).map kill_on_failed_handoff ++
          [⟨newpid, WorkerState.running, some seq⟩], some newpid) := by
      unfold event_run
      split
      · rename_i ws3 pid3 heq
        rw [htry] at heq
        simp at heq
      · rename_i ws3 heq
        rw [htry] at heq
        simp only [Prod.mk.injEq] at heq
        obtain ⟨h2, -⟩ := heq
        subst h2
        rw [if_neg (by rw [List.length_map]; omega),
          if_neg (by rw [hspawn, hany]; decide)]
    refine ⟨_, newpid, hev, ?_, ?_⟩
    · refine ⟨l1.map kill_on_failed_handoff,
        l2.map kill_on_failed_handoff ++ [⟨newpid, WorkerState.running, some seq⟩], ?_⟩
      rw [List.map_append, List.map_cons, hkw]
      simp [List.append_assoc]
    · exact ⟨⟨newpid, WorkerState.running, some seq⟩,
        List.mem_append.mpr (Or.inr (List.mem_singleton.mpr rfl)), rfl, rfl, rfl⟩

/-- Witness for C7: the first idle worker (pid 1) rejects the hand-off,
the second (pid 2) accepts. -/
theorem handoff_failure_recovery_witness :
    ∃ ws2 pid,
      event_run (fun p => decide (p = 2)) true 7 5
        ([] ++ (⟨1, WorkerState.idle, none⟩ : Worker) :: [⟨2, WorkerState.idle, none⟩])
        4 = (1, ws2, some pid) ∧
      (∃ m1 m2, ws2 = m1 ++
        ({ (⟨1, WorkerState.idle, none⟩ : Worker) with
          state := WorkerState.killed } : Worker) :: m2) ∧
      ∃ w2 ∈ ws2, w2.pid = pid ∧ w2.state = WorkerState.running ∧
        w2.event = some 4 :=
  handoff_failure_recovery (fun p => decide (p = 2)) true 7 5 4
    [] [⟨2, WorkerState.idle, none⟩] ⟨1, WorkerState.idle, none⟩
    rfl (by decide) (by intro x hx; simp at hx)
    (Or.inl ⟨⟨2, WorkerState.idle, none⟩, by decide, rfl, by decide⟩)

/-! ## C8: analyzer errors fail open -/

lemma keeps_through_map (l : List Event) (f : Event → Event) (v : Event)
    (hseq : ∀ x, (f x).seqnum = x.seqnum)
    (hfix : ∀ x, x.seqnum = v.seqnum → f x = x)
    (hmem : v ∈ l) (huniq : ∀ x ∈ l, x.seqnum = v.seqnum → x = v) :
    v ∈ l.map f ∧ ∀ x ∈ l.map f, x.seqnum = v.seqnum → x = v := by
  constructor
  · exact List.mem_map.mpr ⟨v, hmem, hfix v rfl⟩
  · intro x hx hxs
    obtain ⟨x0, hx0, rfl⟩ := List.mem_map.mp hx
    rw [hseq x0] at hxs
    rw [hfix x0 hxs]
    exact huniq x0 hx0 hxs

/-- A `RUNNING` event is never touched again by the dispatch loop: it
stays in the queue, unchanged. -/
lemma queue_start_loop_keeps (env : RunEnv) (clock : Option Nat) (v : Event)
    (hv : v.state = EventState.running) :
    ∀ (seqs : List Nat) (st : Manager) (i : Nat),
      v ∈ st.events → (∀ x ∈ st.events, x.seqnum = v.seqnum → x = v) →
      v ∈ (queue_start_loop env clock st i seqs).events ∧
      ∀ x ∈ (queue_start_loop env clock st i seqs).events,
        x.seqnum = v.seqnum → x = v := by
  intro seqs
  induction seqs with
  | nil =>
    intro st i hmem huniq
    exact ⟨hmem, huniq⟩
  | cons seq rest ih =>
    intro st i hmem huniq
    rw [queue_start_loop]
    split
    · exact ih st (i + 1) hmem huniq
    · rename_i e hfind
      have he : e ∈ st.events := List.mem_of_find?_eq_some hfind
      have heseq : e.seqnum = seq := by
        have h2 := List.find?_some hfind
        simpa using h2
      by_cases hq : e.state = EventState.queued
      · rw [if_pos hq]
        have hne : seq ≠ v.seqnum := by
          intro hcon
          have hev2 : e = v := huniq e he (heseq.trans hcon)
          have hq2 := hq
          rw [hev2, hv] at hq2
          cases hq2
        have hblk : ∀ b : Nat,
            v ∈ set_event_blocker seq b st.events ∧
            ∀ x ∈ set_event_blocker seq b st.events, x.seqnum = v.seqnum → x = v := by
          intro b
          apply keeps_through_map st.events _ v
          · intro x
            exact (SameIdent_set_blocker seq b x).1
          · intro x hxs
            rw [if_neg]
            intro hc
            exact hne (by rw [← hc, hxs])
          · exact hmem
          · exact huniq
        have hrunkeep : ∀ (st2 : Manager),
            v ∈ st2.events → (∀ x ∈ st2.events, x.seqnum = v.seqnum → x = v) →
            v ∈ (manager_event_run env i st2 seq).2.events ∧
            ∀ x ∈ (manager_event_run env i st2 seq).2.events,
              x.seqnum = v.seqnum → x = v := by
          intro st2 h2 h3
          rcases manager_event_run_events env i st2 seq with heq | ⟨pid, heq⟩
          · rw [heq]
            exact ⟨h2, h3⟩
          · rw [heq]
            apply keeps_through_map st2.events _ v
            · intro x
              exact (SameIdent_set_running seq pid x).1
            · intro x hxs
              rw [if_neg]
              intro hc
              exact hne (by rw [← hc, hxs])
            · exact h2
            · exact h3
        split
        · rename_i b hib
          obtain ⟨h2, h3⟩ := hblk b
          exact ih _ (i + 1) h2 h3
        · rename_i b hib
          obtain ⟨h2, h3⟩ := hblk b
          obtain ⟨h4, h5⟩ := hrunkeep { st with events := set_event_blocker seq b st.events } h2 h3
          by_cases hr : (manager_event_run env i
              { st with events := set_event_blocker seq b st.events } seq).1 ≤ 0
          · rw [if_pos hr]
            exact ⟨h4, h5⟩
          · rw [if_neg hr]
            exact ih _ (i + 1) h4 h5
        · rename_i u hib
          obtain ⟨h4, h5⟩ := hrunkeep st hmem huniq
          by_cases hr : (manager_event_run env i st seq).1 ≤ 0
          · rw [if_pos hr]
            exact ⟨h4, h5⟩
          · rw [if_neg hr]
            exact ih _ (i + 1) h4 h5
      · rw [if_neg hq]
        exact ih st (i + 1) hmem huniq

/-- C8: fail-open on dependency-analysis error.  With the clock
unavailable and a retry backoff pending, `event_is_blocked` reports an
error; the dispatch loop nevertheless hands the event to `event_run`:
with an accepting idle worker it ends up `RUNNING` in the final state of
the pass. -/
theorem blocked_analysis_fail_open (env : RunEnv) (st : Manager) (i : Nat)
    (e : Event) (rest : List Event) (w : Worker)
    (hev : st.events = e :: rest)
    (hq : e.state = EventState.queued)
    (hretry : 0 < e.retry_again_next_usec)
    (hws : st.workers = [w]) (hwidle : w.state = WorkerState.idle)
    (hacc : env.accept i w.pid = true)
    (hrest : ∀ x ∈ rest, x.seqnum ≠ e.seqnum) :
    event_is_blocked none st.events e = Except.error () ∧
    { e with state := EventState.running, worker := some w.pid } ∈
      (queue_start_loop env none st i (st.events.map (fun x => x.seqnum))).events ∧
    ∀ x ∈ (queue_start_loop env none st i (st.events.map (fun x => x.seqnum))).events,
      x.seqnum = e.seqnum →
        x = { e with state := EventState.running, worker := some w.pid } := by
  have herr : event_is_blocked none st.events e = Except.error () := by
    simp only [event_is_blocked]
    rw [if_pos hretry]
  have hfind : st.events.find? (fun x => x.seqnum = e.seqnum) = some e := by
    rw [hev]
    simp [List.find?]
  have htry : try_idle_workers (env.accept i) e.seqnum [w] =
      ([{ w with state := WorkerState.running, event := some e.seqnum }], some w.pid) := by
    simp only [try_idle_workers]
    rw [if_pos hwidle, if_pos hacc]
  have hrun : event_run (env.accept i) (env.spawn_ok i) (env.newpid i)
      st.children_max st.workers e.seqnum =
      (1, [{ w with state := WorkerState.running, event := some e.seqnum }],
        some w.pid) := by
    rw [hws]
    unfold event_run
    split
    · rename_i ws2 pid heq
      rw [htry] at heq
      simp only [Prod.mk.injEq, Option.some.injEq] at heq
      obtain ⟨h2, h3⟩ := heq
      subst h2
      subst h3
      rfl
    · rename_i ws2 heq
      rw [htry] at heq
      simp at heq
  have hmer := manager_event_run_some hrun
  have hseqs : st.events.map (fun x => x.seqnum) =
      e.seqnum :: rest.map (fun x => x.seqnum) := by
    rw [hev]
    rfl
  have hv : ({ e with state := EventState.running, worker := some w.pid } : Event)
      ∈ (set_event_running e.seqnum w.pid st.events) ∧
      ∀ x ∈ set_event_running e.seqnum w.pid st.events,
        x.seqnum = e.seqnum →
        x = { e with state := EventState.running, worker := some w.pid } := by
    have hst2 : set_event_running e.seqnum w.pid st.events =
        { e with state := EventState.running, worker := some w.pid } :: rest := by
      rw [hev]
      simp only [set_event_running, List.map_cons]
      simp only [if_true]
      congr 1
      apply map_id_mem
      intro x hx
      rw [if_neg (hrest x hx)]
    rw [hst2]
    constructor
    · exact List.mem_cons_self _ _
    · intro x hx hxs
      rcases List.mem_cons.mp hx with rfl | hx2
      · rfl
      · exact absurd hxs (hrest x hx2)
  refine ⟨herr, ?_⟩
  have hcond : ¬((manager_event_run env i st e.seqnum).1 ≤ 0) := by
    rw [hmer]
    show ¬((1 : Int) ≤ 0)
    decide
  rw [hseqs,
    queue_start_loop_cons_error env none st i e.seqnum
      (rest.map (fun x => x.seqnum)) e () hfind hq herr,
    if_neg hcond, hmer]
  exact queue_start_loop_keeps env none _ rfl (rest.map (fun x => x.seqnum)) _ (i + 1)
    hv.1 hv.2

/-- Witness for C8: one queued event in retry mode, clock lookup failing,
one accepting idle worker — the event still runs. -/
theorem blocked_analysis_fail_open_witness :
    event_is_blocked none
        [⟨1, none, "/devices/a", none, none, EventState.queued, 0, 5, 0, none⟩]
        ⟨1, none, "/devices/a", none, none, EventState.queued, 0, 5, 0, none⟩
      = Except.error () ∧
    (⟨1, none, "/devices/a", none, none, EventState.running, 0, 5, 0, some 3⟩ : Event) ∈
      (queue_start_loop ⟨fun _ _ => true, fun _ => true, fun _ => 9, false⟩ none
        { events := [⟨1, none, "/devices/a", none, none, EventState.queued, 0, 5, 0, none⟩],
          workers := [⟨3, WorkerState.idle, none⟩],
          children_max := 4, exit := false, stop_exec_queue := false } 0
        [1]).events ∧
    ∀ x ∈ (queue_start_loop ⟨fun _ _ => true, fun _ => true, fun _ => 9, false⟩ none
        { events := [⟨1, none, "/devices/a", none, none, EventState.queued, 0, 5, 0, none⟩],
          workers := [⟨3, WorkerState.idle, none⟩],
          children_max := 4, exit := false, stop_exec_queue := false } 0
        [1]).events,
      x.seqnum = 1 →
        x = ⟨1, none, "/devices/a", none, none, EventState.running, 0, 5, 0, some 3⟩ :=
  blocked_analysis_fail_open
    ⟨fun _ _ => true, fun _ => true, fun _ => 9, false⟩
    { events := [⟨1, none, "/devices/a", none, none, EventState.queued, 0, 5, 0, none⟩],
      workers := [⟨3, WorkerState.idle, none⟩],
      children_max := 4, exit := false, stop_exec_queue := false } 0
    ⟨1, none, "/devices/a", none, none, EventState.queued, 0, 5, 0, none⟩ []
    ⟨3, WorkerState.idle, none⟩
    rfl rfl (by decide) rfl rfl rfl (by intro x hx; cases hx)

/-! ## C9: blocking analysis is idempotent and memoized -/

lemma set_event_blocker_sorted {l : List Event} {seq b : Nat}
    (hs : l.Pairwise (fun a c => a.seqnum < c.seqnum)) :
    (set_event_blocker seq b l).Pairwise (fun a c => a.seqnum < c.seqnum) := by
  unfold set_event_blocker
  rw [List.pairwise_map]
  exact hs.imp_of_mem fun {a} {c} ha hc hr => by
    rw [(SameIdent_set_blocker seq b a).1, (SameIdent_set_blocker seq b c).1]
    exact hr

/-- Rerunning the cache-updated scan reproduces the result: the false
result hits the memo path, the true result re-finds the cached blocker in
the first loop. -/
lemma event_is_blocked_core_idem {l : List Event} {e : Event} {r : Bool} {b : Nat}
    (hs : l.Pairwise (fun a c => a.seqnum < c.seqnum))
    (hcs : ∀ x ∈ l, x.seqnum < e.blocker_seqnum → event_conflicts e x = false)
    (hle : e.blocker_seqnum ≤ e.seqnum)
    (h : event_is_blocked_core l e = (r, b)) :
    event_is_blocked_core (set_event_blocker e.seqnum b l)
      { e with blocker_seqnum := b } = (r, b) := by
  cases r with
  | false =>
    obtain ⟨hb, -⟩ := event_is_blocked_core_false hs hcs h
    simp only [event_is_blocked_core]
    rw [if_pos hb]
  | true =>
    obtain ⟨hble, hne, ⟨x, hx, hxb⟩, hsound⟩ := event_is_blocked_core_true hs hcs hle h
    simp only [event_is_blocked_core]
    rw [if_neg hne]
    have hscan : scan_events { e with blocker_seqnum := b }
        (set_event_blocker e.seqnum b l) = ScanResult.blocked_cached := by
      apply scan_events_cache_hit (set_event_blocker_sorted hs)
      refine ⟨if x.seqnum = e.seqnum then { x with blocker_seqnum := b } else x, ?_, ?_⟩
      · exact List.mem_map.mpr ⟨x, hx, rfl⟩
      · rw [(SameIdent_set_blocker e.seqnum b x).1]
        exact hxb
    rw [hscan]

/-- C9: (1) calling `event_is_blocked` again at the same instant, with
no queue change other than its own cache write-back, yields the same
result; (2) when the cached blocker equals the event's own seqnum and no
retry backoff is pending, the result is false regardless of the queue —
the memo path does not scan. -/
theorem event_is_blocked_memoized (now : Nat) (l : List Event) (e : Event)
    (hs : l.Pairwise (fun a c => a.seqnum < c.seqnum))
    (hle : e.blocker_seqnum ≤ e.seqnum)
    (hcs : ∀ x ∈ l, x.seqnum < e.blocker_seqnum → event_conflicts e x = false) :
    (∀ (r : Bool) (b : Nat), event_is_blocked (some now) l e = Except.ok (r, b) →
       event_is_blocked (some now) (set_event_blocker e.seqnum b l)
         { e with blocker_seqnum := b } = Except.ok (r, b)) ∧
    (e.blocker_seqnum = e.seqnum →
     (e.retry_again_next_usec = 0 ∨ e.retry_again_next_usec ≤ now) →
       ∀ l2 : List Event,
         event_is_blocked (some now) l2 e = Except.ok (false, e.seqnum)) := by
  constructor
  · intro r b hok
    simp only [event_is_blocked] at hok ⊢
    by_cases h1 : 0 < e.retry_again_next_usec
    · rw [if_pos h1] at hok ⊢
      by_cases h2 : now < e.retry_again_next_usec
      · rw [if_pos h2] at hok ⊢
        simp only [Except.ok.injEq, Prod.mk.injEq] at hok
        obtain ⟨rfl, rfl⟩ := hok
        rfl
      · rw [if_neg h2] at hok ⊢
        injection hok with hok2
        rw [event_is_blocked_core_idem hs hcs hle hok2]
    · rw [if_neg h1] at hok ⊢
      injection hok with hok2
      rw [event_is_blocked_core_idem hs hcs hle hok2]
  · intro hmemo hret l2
    have h2 : e.retry_again_next_usec ≤ now := by
      rcases hret with h | h
      · omega
      · exact h
    simp only [event_is_blocked]
    by_cases h1 : 0 < e.retry_again_next_usec
    · rw [if_pos h1, if_neg (by omega : ¬(now < e.retry_again_next_usec))]
      simp only [event_is_blocked_core]
      rw [if_pos hmemo, hmemo]
    · rw [if_neg h1]
      simp only [event_is_blocked_core]
      rw [if_pos hmemo, hmemo]

/-- Witness for C9 at a two-event queue: seqnum 2 is blocked by seqnum 1;
the re-run after the cache write-back gives the same result, and an event
with a self-pointing cache is unblocked without scanning. -/
theorem event_is_blocked_memoized_witness :
    event_is_blocked (some 0)
      (set_event_blocker 2 1
        [⟨1, none, "/devices/a", none, none, EventState.queued, 0, 0, 0, none⟩,
         ⟨2, none, "/devices/a/b", none, none, EventState.queued, 0, 0, 0, none⟩])
      { (⟨2, none, "/devices/a/b", none, none, EventState.queued, 0, 0, 0,
          none⟩ : Event) with blocker_seqnum := 1 } = Except.ok (true, 1) :=
  (event_is_blocked_memoized 0
    [⟨1, none, "/devices/a", none, none, EventState.queued, 0, 0, 0, none⟩,
     ⟨2, none, "/devices/a/b", none, none, EventState.queued, 0, 0, 0, none⟩]
    ⟨2, none, "/devices/a/b", none, none, EventState.queued, 0, 0, 0, none⟩
    (by decide) (by decide) (by decide)).1 true 1 rfl

end Udev

